import Mathlib

/-!
Shallow embedding of the chess rules engine in `chess_board.py`
(class `BoardState` and its helper dataclasses), together with theorems
settling the specification claims about it.

Conventions of the embedding:
* Python `int` coordinates are `ℤ` (offset arithmetic may go negative).
* The 8×8 grid `List[List[Optional[Piece]]]` is `List (List (Option Piece))`,
  accessed through the same bounds-guarded `get_piece` / `set_piece`.
* Python's in-place mutation is modelled by explicit state passing: each
  mutating method becomes a function returning the updated `BoardState`
  (paired with its `bool` result where the method returns one).
* The trial move inside `_is_move_legal` mutates the board and restores it
  before returning; the pure embedding applies the two `set_piece` writes to
  a local copy and discards it, which is observably the same behaviour.
-/

set_option maxRecDepth 4000

namespace Chess

/-- `PieceType` enum from the source. -/
inductive PieceType where
  | PAWN | ROOK | KNIGHT | BISHOP | QUEEN | KING
deriving DecidableEq, Repr

/-- `Color` enum from the source. -/
inductive Color where
  | WHITE | BLACK
deriving DecidableEq, Repr

/-- `GamePhase` enum from the source. -/
inductive GamePhase where
  | OPENING | MIDDLEGAME | ENDGAME | CHECKMATE | STALEMATE | DRAW
deriving DecidableEq, Repr

/-- `Piece` dataclass: type, color, `has_moved` flag. -/
structure Piece where
  type : PieceType
  color : Color
  has_moved : Bool := false
deriving DecidableEq, Repr

/-- `CastlingRights` dataclass: four independent booleans. -/
structure CastlingRights where
  white_kingside : Bool := true
  white_queenside : Bool := true
  black_kingside : Bool := true
  black_queenside : Bool := true
deriving DecidableEq, Repr

/-- `CastlingRights.can_castle`. -/
def CastlingRights.can_castle (cr : CastlingRights) (color : Color) (kingside : Bool) : Bool :=
  if color = Color.WHITE then
    if kingside then cr.white_kingside else cr.white_queenside
  else
    if kingside then cr.black_kingside else cr.black_queenside

/-- `CastlingRights.lose_castling_right`. -/
def CastlingRights.lose_castling_right (cr : CastlingRights) (color : Color) (kingside : Bool) :
    CastlingRights :=
  if color = Color.WHITE then
    if kingside then { cr with white_kingside := false }
    else { cr with white_queenside := false }
  else
    if kingside then { cr with black_kingside := false }
    else { cr with black_queenside := false }

/-- `CastlingRights.lose_all_castling_rights`. -/
def CastlingRights.lose_all_castling_rights (cr : CastlingRights) (color : Color) :
    CastlingRights :=
  if color = Color.WHITE then
    { cr with white_kingside := false, white_queenside := false }
  else
    { cr with black_kingside := false, black_queenside := false }

/-- `Move` dataclass (the move-history record). -/
structure Move where
  from_square : ℤ × ℤ
  to_square : ℤ × ℤ
  piece : Piece
  captured_piece : Option Piece := none
  promotion : Option PieceType := none
  is_castle : Bool := false
  castle_kingside : Bool := false
  is_en_passant : Bool := false
  is_double_pawn_push : Bool := false
  move_number : Nat := 0
  notation_str : String := ""
deriving DecidableEq, Repr

/-- The 8×8 grid `List[List[Optional[Piece]]]`. -/
abbrev Board := List (List (Option Piece))

/-- `_is_valid_square`: bounds test used throughout the source. -/
def is_valid_square (row col : ℤ) : Bool :=
  decide (0 ≤ row ∧ row < 8 ∧ 0 ≤ col ∧ col < 8)

/-- `get_piece` (board part): bounds-guarded read of `self.board[row][col]`. -/
def get_piece (b : Board) (row col : ℤ) : Option Piece :=
  if is_valid_square row col then
    ((b.getD row.toNat []).getD col.toNat none)
  else
    none

/-- `set_piece` (board part): bounds-guarded write of `self.board[row][col]`;
out of range it changes nothing, mirroring the guarded Python method. -/
def set_piece (b : Board) (row col : ℤ) (piece : Option Piece) : Board :=
  if is_valid_square row col then
    b.set row.toNat ((b.getD row.toNat []).set col.toNat piece)
  else
    b

/-- The 64 squares in the source's row-major scan order. -/
def all_squares : List (ℤ × ℤ) :=
  (List.range 8).flatMap fun r => (List.range 8).map fun c => ((r : ℤ), (c : ℤ))

/-- `get_king_position`: first king of the color in row-major scan order. -/
def get_king_position (b : Board) (color : Color) : Option (ℤ × ℤ) :=
  all_squares.find? fun sq =>
    match get_piece b sq.1 sq.2 with
    | some p => decide (p.type = PieceType.KING ∧ p.color = color)
    | none => false

/-- One sliding-attack ray of `is_square_attacked`: steps `i = 1..7` in
direction `(dr, dc)` from `(row, col)`, stopping at the board edge or the
first occupied square, which attacks iff it has color `by_color` and one of
the two given piece types.  `fuel` counts the remaining iterations. -/
def ray_attacks (b : Board) (by_color : Color) (row col dr dc : ℤ)
    (t1 t2 : PieceType) : Nat → ℤ → Bool
  | 0, _ => false
  | fuel + 1, i =>
    let attack_row := row + i * dr
    let attack_col := col + i * dc
    if ¬ is_valid_square attack_row attack_col then false
    else
      match get_piece b attack_row attack_col with
      | none => ray_attacks b by_color row col dr dc t1 t2 fuel (i + 1)
      | some p => decide (p.color = by_color ∧ (p.type = t1 ∨ p.type = t2))

/-- The knight offset table of the source. -/
def knight_offsets : List (ℤ × ℤ) :=
  [(-2, -1), (-2, 1), (-1, -2), (-1, 2), (1, -2), (1, 2), (2, -1), (2, 1)]

/-- The king offset table of the source. -/
def king_offsets : List (ℤ × ℤ) :=
  [(-1, -1), (-1, 0), (-1, 1), (0, -1), (0, 1), (1, -1), (1, 0), (1, 1)]

/-- `is_square_attacked`: pawn, king, knight, orthogonal rook/queen and
diagonal bishop/queen attack tests, combined by disjunction (the Python
early returns have no other effect). -/
def is_square_attacked (b : Board) (row col : ℤ) (by_color : Color) : Bool :=
  -- pawn attacks: white pawns attack from row+1, black pawns from row-1
  (let attack_row := if by_color = Color.WHITE then row + 1 else row - 1
   ([-1, 1] : List ℤ).any fun dc =>
     let attack_col := col + dc
     if is_valid_square attack_row attack_col then
       match get_piece b attack_row attack_col with
       | some p => decide (p.type = PieceType.PAWN ∧ p.color = by_color)
       | none => false
     else false)
  ||
  -- king attacks
  (([-1, 0, 1] : List ℤ).any fun dr => ([-1, 0, 1] : List ℤ).any fun dc =>
    if dr = 0 ∧ dc = 0 then false
    else
      let attack_row := row + dr
      let attack_col := col + dc
      if is_valid_square attack_row attack_col then
        match get_piece b attack_row attack_col with
        | some p => decide (p.type = PieceType.KING ∧ p.color = by_color)
        | none => false
      else false)
  ||
  -- knight attacks
  (knight_offsets.any fun d =>
    let attack_row := row + d.1
    let attack_col := col + d.2
    if is_valid_square attack_row attack_col then
      match get_piece b attack_row attack_col with
      | some p => decide (p.type = PieceType.KNIGHT ∧ p.color = by_color)
      | none => false
    else false)
  ||
  -- rook/queen attacks (horizontal and vertical)
  (([(0, 1), (0, -1), (1, 0), (-1, 0)] : List (ℤ × ℤ)).any fun d =>
    ray_attacks b by_color row col d.1 d.2 PieceType.ROOK PieceType.QUEEN 7 1)
  ||
  -- bishop/queen attacks (diagonal)
  (([(1, 1), (1, -1), (-1, 1), (-1, -1)] : List (ℤ × ℤ)).any fun d =>
    ray_attacks b by_color row col d.1 d.2 PieceType.BISHOP PieceType.QUEEN 7 1)

/-- `is_king_in_check` (board part): a missing king is treated as not in
check, as in the source. -/
def is_king_in_check (b : Board) (color : Color) : Bool :=
  match get_king_position b color with
  | none => false
  | some kp =>
    is_square_attacked b kp.1 kp.2
      (if color = Color.WHITE then Color.BLACK else Color.WHITE)

/-- `can_castle` (board + rights part): right still held, king not in check,
and colums `[5,6]` (kingside) resp. `[1,2,3]` (queenside) of the back rank
all empty and unattacked — exactly the columns the source iterates over. -/
def can_castle (b : Board) (cr : CastlingRights) (color : Color) (kingside : Bool) : Bool :=
  if ¬ cr.can_castle color kingside then false
  else if is_king_in_check b color then false
  else
    let king_row : ℤ := if color = Color.BLACK then 0 else 7
    let cols : List ℤ := if kingside then [5, 6] else [1, 2, 3]
    cols.all fun col =>
      (get_piece b king_row col).isNone &&
        ¬ is_square_attacked b king_row col
            (if color = Color.WHITE then Color.BLACK else Color.WHITE)

/-- `_is_square_empty_or_enemy`. -/
def is_square_empty_or_enemy (b : Board) (row col : ℤ) (color : Color) : Bool :=
  if ¬ is_valid_square row col then false
  else
    match get_piece b row col with
    | none => true
    | some p => decide (p.color ≠ color)

/-- `_get_pawn_moves`: forward push, double push from the start row, the two
diagonal captures, and the en-passant destination.  `ep` is
`self.en_passant_target`. -/
def get_pawn_moves (b : Board) (ep : Option (ℤ × ℤ)) (row col : ℤ) (color : Color) :
    List (ℤ × ℤ) :=
  let direction : ℤ := if color = Color.WHITE then -1 else 1
  let start_row : ℤ := if color = Color.WHITE then 6 else 1
  -- forward move (and double forward move from the starting position)
  (if is_valid_square (row + direction) col ∧ get_piece b (row + direction) col = none then
      (row + direction, col) ::
        (if row = start_row ∧ is_valid_square (row + 2 * direction) col ∧
            get_piece b (row + 2 * direction) col = none then
          [(row + 2 * direction, col)]
        else [])
    else [])
  ++
  -- diagonal captures
  (([-1, 1] : List ℤ).filterMap fun dc =>
    let new_row := row + direction
    let new_col := col + dc
    if is_valid_square new_row new_col then
      match get_piece b new_row new_col with
      | some p => if p.color ≠ color then some (new_row, new_col) else none
      | none => none
    else none)
  ++
  -- en passant capture
  (match ep with
   | some t =>
     if row + direction = t.1 ∧ (col - t.2).natAbs = 1 then [(t.1, t.2)] else []
   | none => [])

/-- One sliding-move ray of the rook/bishop generators: steps `i = 1..7`,
collecting empty squares, including the first enemy-occupied square, and
stopping at the edge or at any occupied square. -/
def ray_moves (b : Board) (color : Color) (row col dr dc : ℤ) : Nat → ℤ → List (ℤ × ℤ)
  | 0, _ => []
  | fuel + 1, i =>
    let new_row := row + i * dr
    let new_col := col + i * dc
    if ¬ is_valid_square new_row new_col then []
    else
      match get_piece b new_row new_col with
      | none => (new_row, new_col) :: ray_moves b color row col dr dc fuel (i + 1)
      | some p => if p.color ≠ color then [(new_row, new_col)] else []

/-- `_get_rook_moves`. -/
def get_rook_moves (b : Board) (row col : ℤ) (color : Color) : List (ℤ × ℤ) :=
  ([(0, 1), (0, -1), (1, 0), (-1, 0)] : List (ℤ × ℤ)).flatMap fun d =>
    ray_moves b color row col d.1 d.2 7 1

/-- `_get_bishop_moves`. -/
def get_bishop_moves (b : Board) (row col : ℤ) (color : Color) : List (ℤ × ℤ) :=
  ([(1, 1), (1, -1), (-1, 1), (-1, -1)] : List (ℤ × ℤ)).flatMap fun d =>
    ray_moves b color row col d.1 d.2 7 1

/-- `_get_queen_moves`. -/
def get_queen_moves (b : Board) (row col : ℤ) (color : Color) : List (ℤ × ℤ) :=
  get_rook_moves b row col color ++ get_bishop_moves b row col color

/-- `_get_knight_moves`. -/
def get_knight_moves (b : Board) (row col : ℤ) (color : Color) : List (ℤ × ℤ) :=
  knight_offsets.filterMap fun d =>
    if is_square_empty_or_enemy b (row + d.1) (col + d.2) color then
      some (row + d.1, col + d.2)
    else none

/-- `_get_king_moves`: the 8 offsets plus the synthesized castling
destinations on columns 6 and 2. -/
def get_king_moves (b : Board) (cr : CastlingRights) (row col : ℤ) (color : Color) :
    List (ℤ × ℤ) :=
  (king_offsets.filterMap fun d =>
    if is_square_empty_or_enemy b (row + d.1) (col + d.2) color then
      some (row + d.1, col + d.2)
    else none)
  ++ (if can_castle b cr color true then [(row, 6)] else [])
  ++ (if can_castle b cr color false then [(row, 2)] else [])

/-- `_is_move_legal`: trial-relocate the piece at the origin (two guarded
writes on a local copy of the grid, mirroring the Python
mutate-test-restore), and accept iff the mover's king is not in check on
the trial grid.  The source reads the moving piece from the board itself;
callers only invoke it with an occupied origin square. -/
def is_move_legal (b : Board) (from_row from_col to_row to_col : ℤ) : Bool :=
  match get_piece b from_row from_col with
  | none => false  -- unreachable in the source (it would dereference None)
  | some piece =>
    let trial := set_piece (set_piece b to_row to_col (some piece)) from_row from_col none
    ¬ is_king_in_check trial piece.color

/-- `get_possible_moves` (board + ep + rights part): pseudo-legal moves of
the occupant, filtered by `is_move_legal`. -/
def get_possible_moves (b : Board) (ep : Option (ℤ × ℤ)) (cr : CastlingRights)
    (row col : ℤ) : List (ℤ × ℤ) :=
  match get_piece b row col with
  | none => []
  | some piece =>
    let pseudo_moves :=
      match piece.type with
      | PieceType.PAWN => get_pawn_moves b ep row col piece.color
      | PieceType.ROOK => get_rook_moves b row col piece.color
      | PieceType.KNIGHT => get_knight_moves b row col piece.color
      | PieceType.BISHOP => get_bishop_moves b row col piece.color
      | PieceType.QUEEN => get_queen_moves b row col piece.color
      | PieceType.KING => get_king_moves b cr row col piece.color
    pseudo_moves.filter fun m => is_move_legal b row col m.1 m.2

/-- `_is_castling_move`: a king moving exactly two files on one rank. -/
def is_castling_move (b : Board) (from_row from_col to_row to_col : ℤ) : Bool :=
  match get_piece b from_row from_col with
  | none => false
  | some piece =>
    if piece.type ≠ PieceType.KING then false
    else if from_row ≠ to_row ∨ (to_col - from_col).natAbs ≠ 2 then false
    else true

/-- `setup_initial_position`: the standard starting grid. -/
def piece_order : List PieceType :=
  [PieceType.ROOK, PieceType.KNIGHT, PieceType.BISHOP, PieceType.QUEEN,
   PieceType.KING, PieceType.BISHOP, PieceType.KNIGHT, PieceType.ROOK]

def initial_board : Board :=
  [piece_order.map fun t => some (Piece.mk t Color.BLACK false),
   List.replicate 8 (some (Piece.mk PieceType.PAWN Color.BLACK false)),
   List.replicate 8 none,
   List.replicate 8 none,
   List.replicate 8 none,
   List.replicate 8 none,
   List.replicate 8 (some (Piece.mk PieceType.PAWN Color.WHITE false)),
   piece_order.map fun t => some (Piece.mk t Color.WHITE false)]

/-- `BoardState` dataclass.  The Python `dict` cache
`_cached_attackers_defenders` is an insertion-ordered association list. -/
structure BoardState where
  board : Board := initial_board
  current_turn : Color := Color.WHITE
  move_number : Nat := 1
  halfmove_clock : Nat := 0
  fullmove_number : Nat := 1
  castling_rights : CastlingRights := {}
  en_passant_target : Option (ℤ × ℤ) := none
  is_check : Bool := false
  is_in_checkmate : Bool := false
  is_in_stalemate : Bool := false
  game_phase : GamePhase := GamePhase.OPENING
  move_history : List Move := []
  last_move : Option ((ℤ × ℤ) × (ℤ × ℤ)) := none
  position_history : List String := []
  undo_stack : List BoardState := []
  redo_stack : List BoardState := []
  cached_hanging_pieces_white : List (ℤ × ℤ) := []
  cached_hanging_pieces_black : List (ℤ × ℤ) := []
  hanging_pieces_cache_valid : Bool := false
  cached_interesting_squares : List (ℤ × ℤ) := []
  cached_attackers_defenders : List ((ℤ × ℤ) × (List (ℤ × ℤ) × List (ℤ × ℤ))) := []
  exchange_cache_valid : Bool := false
  cached_knight_fork_squares_white : List (ℤ × ℤ) := []
  cached_knight_fork_squares_black : List (ℤ × ℤ) := []
  knight_fork_cache_valid : Bool := false

/-- A fresh `BoardState()` (the `__post_init__` starting position). -/
def initial_state : BoardState := { undo_stack := [], redo_stack := [] }

/-- `reset_to_initial_position`: every field back to its initial value,
including empty stacks and invalidated caches. -/
def reset_to_initial_position (_s : BoardState) : BoardState :=
  { undo_stack := [], redo_stack := [] }

/-- `get_piece` method. -/
def BoardState.get_piece (s : BoardState) (row col : ℤ) : Option Piece :=
  Chess.get_piece s.board row col

/-- `set_piece` method. -/
def BoardState.set_piece (s : BoardState) (row col : ℤ) (p : Option Piece) : BoardState :=
  { s with board := Chess.set_piece s.board row col p }

/-- `get_possible_moves` method. -/
def BoardState.get_possible_moves (s : BoardState) (row col : ℤ) : List (ℤ × ℤ) :=
  Chess.get_possible_moves s.board s.en_passant_target s.castling_rights row col

/-- `is_king_in_check` method. -/
def BoardState.is_king_in_check (s : BoardState) (color : Color) : Bool :=
  Chess.is_king_in_check s.board color

/-- `is_checkmate`: in check and no piece of the color has a legal move. -/
def is_checkmate (b : Board) (ep : Option (ℤ × ℤ)) (cr : CastlingRights)
    (color : Color) : Bool :=
  if ¬ is_king_in_check b color then false
  else
    all_squares.all fun sq =>
      match get_piece b sq.1 sq.2 with
      | some p =>
        if p.color = color then (get_possible_moves b ep cr sq.1 sq.2).isEmpty else true
      | none => true

/-- `is_stalemate`: not in check and no piece of the color has a legal move. -/
def is_stalemate (b : Board) (ep : Option (ℤ × ℤ)) (cr : CastlingRights)
    (color : Color) : Bool :=
  if is_king_in_check b color then false
  else
    all_squares.all fun sq =>
      match get_piece b sq.1 sq.2 with
      | some p =>
        if p.color = color then (get_possible_moves b ep cr sq.1 sq.2).isEmpty else true
      | none => true

/-- `can_undo`. -/
def BoardState.can_undo (s : BoardState) : Bool := s.undo_stack.length > 0

/-- `can_redo`. -/
def BoardState.can_redo (s : BoardState) : Bool := s.redo_stack.length > 0

/-- The deep copy taken for a snapshot, with `undo_stack`/`redo_stack`
emptied (`state_copy.undo_stack = []; state_copy.redo_stack = []`). -/
def strip_stacks (s : BoardState) : BoardState :=
  { s with undo_stack := [], redo_stack := [] }

/-- `_save_state_for_undo`: push the stripped snapshot, evict the oldest
entry if the stack exceeds 50, and clear the redo stack. -/
def save_state_for_undo (s : BoardState) : BoardState :=
  let u := s.undo_stack ++ [strip_stacks s]
  let u := if u.length > 50 then u.tail else u
  { s with undo_stack := u, redo_stack := [] }

/-- `_invalidate_hanging_pieces_cache`: clears all three cache validity
flags (the other two are chained invalidations in the source). -/
def invalidate_hanging_pieces_cache (s : BoardState) : BoardState :=
  { s with hanging_pieces_cache_valid := false,
           exchange_cache_valid := false,
           knight_fork_cache_valid := false }

/-- `_execute_castling`: relocate king and rook, mark both as moved
(the Python mutates the shared piece objects after placing them, so the
placed pieces carry `has_moved = true`), and clear the color's rights. -/
def execute_castling (s : BoardState) (from_row from_col to_row to_col : ℤ) : BoardState :=
  let is_kingside := to_col > from_col
  let king := get_piece s.board from_row from_col
  let king' := king.map fun p => { p with has_moved := true }
  let b := set_piece (set_piece s.board to_row to_col king') from_row from_col none
  let b :=
    if is_kingside then
      let rook := get_piece b from_row 7
      let rook' := rook.map fun p => { p with has_moved := true }
      set_piece (set_piece b from_row 5 rook') from_row 7 none
    else
      let rook := get_piece b from_row 0
      let rook' := rook.map fun p => { p with has_moved := true }
      set_piece (set_piece b from_row 3 rook') from_row 0 none
  let cr :=
    match king with
    | some k => s.castling_rights.lose_all_castling_rights k.color
    | none => s.castling_rights
  { s with board := b, castling_rights := cr }

/-- The move-execution block of `make_move`: castling execution, or the
regular relocation with its castling-rights bookkeeping for king moves,
rook moves from column 0/7, and captures of a rook on column 0/7.  The
Python mutates the shared piece object after placing it, so the placed
piece carries `has_moved = true`. -/
def apply_piece_move (s : BoardState) (piece : Piece) (captured_piece : Option Piece)
    (from_row from_col to_row to_col : ℤ) : BoardState :=
  if is_castling_move s.board from_row from_col to_row to_col then
    execute_castling s from_row from_col to_row to_col
  else
    let piece' : Piece := { piece with has_moved := true }
    let b := set_piece (set_piece s.board to_row to_col (some piece')) from_row from_col none
    let cr :=
      if piece.type = PieceType.KING then
        s.castling_rights.lose_all_castling_rights piece.color
      else if piece.type = PieceType.ROOK then
        if from_col = 0 then s.castling_rights.lose_castling_right piece.color false
        else if from_col = 7 then s.castling_rights.lose_castling_right piece.color true
        else s.castling_rights
      else s.castling_rights
    let cr :=
      match captured_piece with
      | some cp =>
        if cp.type = PieceType.ROOK then
          if to_col = 0 then cr.lose_castling_right cp.color false
          else if to_col = 7 then cr.lose_castling_right cp.color true
          else cr
        else cr
      | none => cr
    { s with board := b, castling_rights := cr }

/-- The special-pawn-moves block shared by both mutators: when
`is_pawn_move` holds (`piece.type == PAWN` in `make_move`;
`piece.type == PAWN and not is_promotion` in `make_move_with_promotion`),
set or clear the en-passant target and remove the passed pawn on an
en-passant capture; otherwise clear the en-passant target. -/
def apply_pawn_rules (s : BoardState) (is_pawn_move : Bool) (captured_piece : Option Piece)
    (from_row from_col to_row to_col : ℤ) : BoardState :=
  if is_pawn_move then
    let s :=
      if (to_row - from_row).natAbs = 2 then
        { s with en_passant_target := some (from_row + (to_row - from_row) / 2, to_col) }
      else
        { s with en_passant_target := none }
    if captured_piece = none ∧ (to_col - from_col).natAbs = 1 then
      { s with board := set_piece s.board from_row to_col none }
    else s
  else
    { s with en_passant_target := none }

/-- The move-counter block: reset the halfmove clock on a capture or a
pawn move (as the caller's `piece` variable reads at that point),
otherwise increment it. -/
def apply_clock (s : BoardState) (piece : Piece) (captured_piece : Option Piece) : BoardState :=
  if captured_piece.isSome ∨ piece.type = PieceType.PAWN then
    { s with halfmove_clock := 0 }
  else
    { s with halfmove_clock := s.halfmove_clock + 1 }

/-- The turn-switch block: flip the side to move and increment the
fullmove number exactly when the new side to move is White. -/
def apply_turn_switch (s : BoardState) : BoardState :=
  let s :=
    { s with current_turn :=
        if s.current_turn = Color.WHITE then Color.BLACK else Color.WHITE }
  if s.current_turn = Color.WHITE then
    { s with fullmove_number := s.fullmove_number + 1 }
  else s

/-- The status block: recompute the check flag for the (new) side to move,
then checkmate when in check, else stalemate — when in check the stalemate
flag keeps its previous value, as in the source. -/
def apply_status (s : BoardState) : BoardState :=
  let s := { s with is_check := is_king_in_check s.board s.current_turn }
  if s.is_check then
    { s with is_in_checkmate :=
        is_checkmate s.board s.en_passant_target s.castling_rights s.current_turn }
  else
    { s with is_in_checkmate := false,
             is_in_stalemate :=
               is_stalemate s.board s.en_passant_target s.castling_rights s.current_turn }

/-- The history block: append the `Move` record and update the last-move
pointer. -/
def apply_record (s : BoardState) (mv : Move) (from_row from_col to_row to_col : ℤ) :
    BoardState :=
  let s := { s with move_history := s.move_history ++ [mv] }
  { s with last_move := some ((from_row, from_col), (to_row, to_col)) }

/-- The post-validation body of `make_move` (everything after the three
guard checks), in the statement order of the source: snapshot, cache
invalidation, move execution, pawn rules, clocks, turn flip, status
recomputation, history record. -/
def make_move_body (s : BoardState) (piece : Piece)
    (from_row from_col to_row to_col : ℤ) : BoardState :=
  let s := save_state_for_undo s
  let s := invalidate_hanging_pieces_cache s
  let captured_piece := get_piece s.board to_row to_col
  let s := apply_piece_move s piece captured_piece from_row from_col to_row to_col
  let s := apply_pawn_rules s (decide (piece.type = PieceType.PAWN)) captured_piece
    from_row from_col to_row to_col
  let s := apply_clock s piece captured_piece
  let s := apply_turn_switch s
  let s := apply_status s
  apply_record s
    { from_square := (from_row, from_col), to_square := (to_row, to_col),
      piece := { piece with has_moved := true },
      captured_piece := captured_piece,
      move_number := s.fullmove_number }
    from_row from_col to_row to_col

/-- `make_move`: validate (destination among the legal moves, a piece at the
origin, the mover's color to move), then run the mutation body.  Any failed
precondition returns `false` with the state untouched. -/
def make_move (s : BoardState) (from_row from_col to_row to_col : ℤ) : Bool × BoardState :=
  let possible_moves := s.get_possible_moves from_row from_col
  if (to_row, to_col) ∉ possible_moves then (false, s)
  else
    match s.get_piece from_row from_col with
    | none => (false, s)
    | some piece =>
      if piece.color ≠ s.current_turn then (false, s)
      else (true, make_move_body s piece from_row from_col to_row to_col)

/-- The post-validation body of `make_move_with_promotion`.  Differences
from `make_move_body`, mirrored from the source: no cache invalidation, no
castling execution, no castling-rights bookkeeping, the pawn is replaced by
the promoted piece before placement, en-passant bookkeeping is skipped on
promotion, and the halfmove-clock test reads the reassigned `piece`
variable (the promoted piece on a promotion). -/
def make_move_with_promotion_body (s : BoardState) (piece0 : Piece)
    (from_row from_col to_row to_col : ℤ) (promotion_piece : PieceType) : BoardState :=
  let s := save_state_for_undo s
  let captured_piece := get_piece s.board to_row to_col
  let is_promotion :=
    decide (piece0.type = PieceType.PAWN ∧
      ((piece0.color = Color.WHITE ∧ to_row = 0) ∨ (piece0.color = Color.BLACK ∧ to_row = 7)))
  -- the source reassigns its local `piece` variable on a promotion, then
  -- marks it moved after placement
  let piece : Piece :=
    if is_promotion then Piece.mk promotion_piece piece0.color true else piece0
  let piece : Piece := { piece with has_moved := true }
  let s :=
    { s with board :=
        set_piece (set_piece s.board to_row to_col (some piece)) from_row from_col none }
  let s := apply_pawn_rules s (decide (piece.type = PieceType.PAWN) && ! is_promotion)
    captured_piece from_row from_col to_row to_col
  let s := apply_clock s piece captured_piece
  let s := apply_turn_switch s
  let s := apply_status s
  apply_record s
    { from_square := (from_row, from_col), to_square := (to_row, to_col),
      piece := piece,
      captured_piece := captured_piece,
      promotion := if is_promotion then some promotion_piece else none,
      move_number := s.fullmove_number }
    from_row from_col to_row to_col

/-- `make_move_with_promotion`: identical validation to `make_move`, then
its own mutation body. -/
def make_move_with_promotion (s : BoardState) (from_row from_col to_row to_col : ℤ)
    (promotion_piece : PieceType) : Bool × BoardState :=
  let possible_moves := s.get_possible_moves from_row from_col
  if (to_row, to_col) ∉ possible_moves then (false, s)
  else
    match s.get_piece from_row from_col with
    | none => (false, s)
    | some piece =>
      if piece.color ≠ s.current_turn then (false, s)
      else
        (true, make_move_with_promotion_body s piece from_row from_col to_row to_col
          promotion_piece)

/-- `undo_move`: pop the most recent snapshot (`undo_stack.pop()` takes the
last element), push the stripped current state onto the redo stack,
invalidate the caches, and copy every listed field from the snapshot —
the cache data lists and the stacks themselves are not copied. -/
def undo_move (s : BoardState) : Bool × BoardState :=
  match s.undo_stack.getLast? with
  | none => (false, s)  -- `can_undo` is false
  | some previous_state =>
    (true,
      { board := previous_state.board
        current_turn := previous_state.current_turn
        move_number := previous_state.move_number
        halfmove_clock := previous_state.halfmove_clock
        fullmove_number := previous_state.fullmove_number
        castling_rights := previous_state.castling_rights
        en_passant_target := previous_state.en_passant_target
        is_check := previous_state.is_check
        is_in_checkmate := previous_state.is_in_checkmate
        is_in_stalemate := previous_state.is_in_stalemate
        game_phase := previous_state.game_phase
        move_history := previous_state.move_history
        last_move := previous_state.last_move
        position_history := previous_state.position_history
        undo_stack := s.undo_stack.dropLast
        redo_stack := s.redo_stack ++ [strip_stacks s]
        cached_hanging_pieces_white := s.cached_hanging_pieces_white
        cached_hanging_pieces_black := s.cached_hanging_pieces_black
        hanging_pieces_cache_valid := false
        cached_interesting_squares := s.cached_interesting_squares
        cached_attackers_defenders := s.cached_attackers_defenders
        exchange_cache_valid := false
        cached_knight_fork_squares_white := s.cached_knight_fork_squares_white
        cached_knight_fork_squares_black := s.cached_knight_fork_squares_black
        knight_fork_cache_valid := false })

/-- `redo_move`: the mirror of `undo_move`.  Note the push onto the undo
stack here has no 50-entry cap. -/
def redo_move (s : BoardState) : Bool × BoardState :=
  match s.redo_stack.getLast? with
  | none => (false, s)  -- `can_redo` is false
  | some next_state =>
    (true,
      { board := next_state.board
        current_turn := next_state.current_turn
        move_number := next_state.move_number
        halfmove_clock := next_state.halfmove_clock
        fullmove_number := next_state.fullmove_number
        castling_rights := next_state.castling_rights
        en_passant_target := next_state.en_passant_target
        is_check := next_state.is_check
        is_in_checkmate := next_state.is_in_checkmate
        is_in_stalemate := next_state.is_in_stalemate
        game_phase := next_state.game_phase
        move_history := next_state.move_history
        last_move := next_state.last_move
        position_history := next_state.position_history
        undo_stack := s.undo_stack ++ [strip_stacks s]
        redo_stack := s.redo_stack.dropLast
        cached_hanging_pieces_white := s.cached_hanging_pieces_white
        cached_hanging_pieces_black := s.cached_hanging_pieces_black
        hanging_pieces_cache_valid := false
        cached_interesting_squares := s.cached_interesting_squares
        cached_attackers_defenders := s.cached_attackers_defenders
        exchange_cache_valid := false
        cached_knight_fork_squares_white := s.cached_knight_fork_squares_white
        cached_knight_fork_squares_black := s.cached_knight_fork_squares_black
        knight_fork_cache_valid := false })

/-- `_is_piece_hanging_simple`: attacked by the enemy and not defended. -/
def is_piece_hanging_simple (b : Board) (row col : ℤ) : Bool :=
  match get_piece b row col with
  | none => false
  | some piece =>
    let enemy_color := if piece.color = Color.WHITE then Color.BLACK else Color.WHITE
    if ¬ is_square_attacked b row col enemy_color then false
    else if is_square_attacked b row col piece.color then false
    else true

/-- `_update_hanging_pieces_cache`: rebuild both hanging-piece lists in
row-major scan order and set the validity flag. -/
def update_hanging_pieces_cache (s : BoardState) : BoardState :=
  let hanging := fun color => all_squares.filter fun sq =>
    match get_piece s.board sq.1 sq.2 with
    | some p => decide (p.color = color) && is_piece_hanging_simple s.board sq.1 sq.2
    | none => false
  { s with cached_hanging_pieces_white := hanging Color.WHITE,
           cached_hanging_pieces_black := hanging Color.BLACK,
           hanging_pieces_cache_valid := true }

/-- `get_hanging_pieces`: rebuild the cache if the flag is clear, then
return the cached list for the color (the Python returns a copy; reading
also mutates `self`, hence the returned state). -/
def get_hanging_pieces (s : BoardState) (color : Color) : List (ℤ × ℤ) × BoardState :=
  let s := if ¬ s.hanging_pieces_cache_valid then update_hanging_pieces_cache s else s
  (if color = Color.WHITE then s.cached_hanging_pieces_white
   else s.cached_hanging_pieces_black, s)

/-- FEN letter of one piece: uppercase white, lowercase black. -/
def piece_fen (p : Piece) : String :=
  match p.color, p.type with
  | Color.WHITE, PieceType.PAWN => "P"
  | Color.WHITE, PieceType.ROOK => "R"
  | Color.WHITE, PieceType.KNIGHT => "N"
  | Color.WHITE, PieceType.BISHOP => "B"
  | Color.WHITE, PieceType.QUEEN => "Q"
  | Color.WHITE, PieceType.KING => "K"
  | Color.BLACK, PieceType.PAWN => "p"
  | Color.BLACK, PieceType.ROOK => "r"
  | Color.BLACK, PieceType.KNIGHT => "n"
  | Color.BLACK, PieceType.BISHOP => "b"
  | Color.BLACK, PieceType.QUEEN => "q"
  | Color.BLACK, PieceType.KING => "k"

/-- Run-length encoding of one rank for FEN, carrying the running count of
empty squares. -/
def fen_row : List (Option Piece) → Nat → String
  | [], empty_count => if empty_count > 0 then Nat.repr empty_count else ""
  | none :: rest, empty_count => fen_row rest (empty_count + 1)
  | some p :: rest, empty_count =>
    (if empty_count > 0 then Nat.repr empty_count else "") ++ piece_fen p ++ fen_row rest 0

/-- `get_fen_position`: the six space-separated FEN fields. -/
def get_fen_position (s : BoardState) : String :=
  let board_fen := String.intercalate "/" (s.board.map fun row => fen_row row 0)
  let active_color := if s.current_turn = Color.WHITE then "w" else "b"
  let castling :=
    (if s.castling_rights.white_kingside then "K" else "") ++
    (if s.castling_rights.white_queenside then "Q" else "") ++
    (if s.castling_rights.black_kingside then "k" else "") ++
    (if s.castling_rights.black_queenside then "q" else "")
  let castling := if castling = "" then "-" else castling
  let ep_target :=
    match s.en_passant_target with
    | some t =>
      String.mk [Char.ofNat ('a'.toNat + t.2.toNat)] ++ Nat.repr ((8 - t.1).toNat)
    | none => "-"
  board_fen ++ " " ++ active_color ++ " " ++ castling ++ " " ++ ep_target ++ " " ++
    Nat.repr s.halfmove_clock ++ " " ++ Nat.repr s.fullmove_number

/-! ## Concrete positions used by individual claims -/

/-- Shorthand: an empty square. -/
def e : Option Piece := none

/-- Shorthand: an empty rank. -/
def er : List (Option Piece) := List.replicate 8 e

/-- En-passant pin position: White king a5, White pawn e5, Black pawn d5
(which just double-pushed, en-passant target d6), Black rook h5, Black king
a8.  Capturing en passant removes the d5 pawn and exposes the White king to
the rook along the fifth rank. -/
def c1_state : BoardState :=
  { board := [[some ⟨PieceType.KING, Color.BLACK, false⟩, e, e, e, e, e, e, e],
              er, er,
              [some ⟨PieceType.KING, Color.WHITE, true⟩, e, e,
               some ⟨PieceType.PAWN, Color.BLACK, true⟩,
               some ⟨PieceType.PAWN, Color.WHITE, true⟩, e, e,
               some ⟨PieceType.ROOK, Color.BLACK, false⟩],
              er, er, er, er],
    en_passant_target := some (2, 3),
    undo_stack := [], redo_stack := [] }

/-- C1: the claim "every move in `get_possible_moves` leaves the mover's
king unattacked after full application" fails on the code: in `c1_state`
the en-passant capture d6 is generated as legal (the trial move in
`_is_move_legal` does not remove the captured pawn), yet after `make_move`
applies it with the en-passant removal, the White king is attacked.  This
contradicts the docstring of `get_possible_moves` ("filters out moves that
leave king in check"), so the code, not the claim, is wrong. -/
theorem c1_ep_pin_violation :
    ((2 : ℤ), (3 : ℤ)) ∈ c1_state.get_possible_moves 3 4 ∧
    (make_move c1_state 3 4 2 3).1 = true ∧
    is_king_in_check (make_move c1_state 3 4 2 3).2.board Color.WHITE = true :=
  ⟨by decide, by decide, by decide⟩

/-- State after 1. e2-e4 from the starting position. -/
def c2_s1 : BoardState := (make_move initial_state 6 4 4 4).2

/-- … after the hint layer reads the hanging-piece cache (no hanging
pieces; the read fills the cache and sets its validity flag). -/
def c2_s1r : BoardState := (get_hanging_pieces c2_s1 Color.WHITE).2

/-- … after Black replies d7-d5 through `make_move_with_promotion`.
Now the White e4 pawn is attacked by the d5 pawn and undefended. -/
def c2_s2 : BoardState := (make_move_with_promotion c2_s1r 1 3 3 3 PieceType.QUEEN).2

/-- C2: the claim "every mutating operation clears the validity flags of
all three tactical caches, so a read never returns a pre-mutation answer"
fails on the code: `make_move_with_promotion` omits the
`_invalidate_hanging_pieces_cache` call that `make_move`, `undo_move`,
`redo_move` and `reset_to_initial_position` all make.  After d7-d5 through
it, the flag is still set, `get_hanging_pieces` returns the stale
pre-mutation answer `[]`, while recomputing from the current board yields
the hanging e4 pawn `(4,4)`.  The surrounding code makes the invalidate-on-
every-mutation intent clear, so the code, not the claim, is wrong. -/
theorem c2_stale_cache_violation :
    (make_move_with_promotion c2_s1r 1 3 3 3 PieceType.QUEEN).1 = true ∧
    c2_s2.hanging_pieces_cache_valid = true ∧
    (get_hanging_pieces c2_s2 Color.WHITE).1 = [] ∧
    (update_hanging_pieces_cache c2_s2).cached_hanging_pieces_white = [(4, 4)] :=
  ⟨by decide, by decide, by decide, by decide⟩

/-- Castling-ready position: White king e1 and rook h1 (both unmoved),
Black king e8; all castling rights held. -/
def c3_state : BoardState :=
  { board := [[e, e, e, e, some ⟨PieceType.KING, Color.BLACK, false⟩, e, e, e],
              er, er, er, er, er, er,
              [e, e, e, e, some ⟨PieceType.KING, Color.WHITE, false⟩, e, e,
               some ⟨PieceType.ROOK, Color.WHITE, false⟩]],
    undo_stack := [], redo_stack := [] }

/-- C3 counterexample: the mover (the king castling e1-g1) is not a pawn
reaching the back rank, yet `make_move` and `make_move_with_promotion`
produce different states: `make_move` relocates the rook to f1 and clears
the White kingside right, while `make_move_with_promotion` moves only the
king, leaves f1 empty and the right held. -/
theorem c3_counterexample :
    get_piece c3_state.board 7 4 = some ⟨PieceType.KING, Color.WHITE, false⟩ ∧
    (make_move c3_state 7 4 7 6).1 = true ∧
    (make_move_with_promotion c3_state 7 4 7 6 PieceType.QUEEN).1 = true ∧
    get_piece (make_move c3_state 7 4 7 6).2.board 7 5 =
      some ⟨PieceType.ROOK, Color.WHITE, true⟩ ∧
    get_piece (make_move_with_promotion c3_state 7 4 7 6 PieceType.QUEEN).2.board 7 5 =
      none ∧
    (make_move c3_state 7 4 7 6).2.castling_rights.white_kingside = false ∧
    (make_move_with_promotion c3_state 7 4 7 6 PieceType.QUEEN).2.castling_rights.white_kingside
      = true :=
  ⟨by decide, by decide, by decide, by decide, by decide, by decide, by decide⟩

/-- Quiet-promotion position: White pawn a7 about to promote on the empty
a8, White king e1, Black king h6; halfmove clock 5. -/
def c5_state : BoardState :=
  { board := [er,
              [some ⟨PieceType.PAWN, Color.WHITE, true⟩, e, e, e, e, e, e, e],
              [e, e, e, e, e, e, e, some ⟨PieceType.KING, Color.BLACK, false⟩],
              er, er, er, er,
              [e, e, e, e, some ⟨PieceType.KING, Color.WHITE, false⟩, e, e, e]],
    halfmove_clock := 5,
    undo_stack := [], redo_stack := [] }

/-- C5: the claim "the halfmove clock is 0 after any move whose mover was a
pawn" fails on `make_move_with_promotion`: on a quiet promotion the clock
test reads the reassigned `piece` variable, which by then holds the
promoted piece (a queen here), so the clock is incremented to 6 instead of
being reset to 0.  `make_move` implements the rule correctly and the spec
states it explicitly, so this is a slip in the code (the claim is right,
the code wrong). -/
theorem c5_promotion_clock_violation :
    c5_state.halfmove_clock = 5 ∧
    get_piece c5_state.board 1 0 = some ⟨PieceType.PAWN, Color.WHITE, true⟩ ∧
    (make_move_with_promotion c5_state 1 0 0 0 PieceType.QUEEN).1 = true ∧
    (make_move_with_promotion c5_state 1 0 0 0 PieceType.QUEEN).2.halfmove_clock = 6 :=
  ⟨by decide, by decide, by decide, by decide⟩

/-- Queenside-castling position with only the b1 square attacked: White
king e1 and rook a1 (rights held), b1/c1/d1 empty, Black knight a3
attacking b1 but neither c1 nor d1 nor the king, Black king e8. -/
def c6_state : BoardState :=
  { board := [[e, e, e, e, some ⟨PieceType.KING, Color.BLACK, false⟩, e, e, e],
              er, er, er, er,
              [some ⟨PieceType.KNIGHT, Color.BLACK, false⟩, e, e, e, e, e, e, e],
              er,
              [some ⟨PieceType.ROOK, Color.WHITE, false⟩, e, e, e,
               some ⟨PieceType.KING, Color.WHITE, false⟩, e, e, e]],
    undo_stack := [], redo_stack := [] }

/-- C6 counterexample: in `c6_state` every condition of the claim holds —
the queenside right is held, the king is not in check, b1/c1/d1 (the
squares strictly between king and rook) are empty, and the squares the
king passes through (d1 and the destination c1) are unattacked — yet
`can_castle` returns `false`, because the code additionally requires the
b-file square b1 to be unattacked, and the knight on a3 attacks it. -/
theorem c6_counterexample :
    c6_state.castling_rights.can_castle Color.WHITE false = true ∧
    is_king_in_check c6_state.board Color.WHITE = false ∧
    (get_piece c6_state.board 7 1 = none ∧ get_piece c6_state.board 7 2 = none ∧
      get_piece c6_state.board 7 3 = none) ∧
    (is_square_attacked c6_state.board 7 2 Color.BLACK = false ∧
      is_square_attacked c6_state.board 7 3 Color.BLACK = false) ∧
    is_square_attacked c6_state.board 7 1 Color.BLACK = true ∧
    can_castle c6_state.board c6_state.castling_rights Color.WHITE false = false :=
  ⟨by decide, by decide, ⟨by decide, by decide, by decide⟩,
   ⟨by decide, by decide⟩, by decide, by decide⟩

/-- Rook-move position: White king e1 and rook a1 (rights held), Black
king e8. -/
def c7_state : BoardState :=
  { board := [[e, e, e, e, some ⟨PieceType.KING, Color.BLACK, false⟩, e, e, e],
              er, er, er, er, er, er,
              [some ⟨PieceType.ROOK, Color.WHITE, false⟩, e, e, e,
               some ⟨PieceType.KING, Color.WHITE, false⟩, e, e, e]],
    undo_stack := [], redo_stack := [] }

/-- C7 counterexample: the two-operation public sequence
`make_move (a1-a2)` then `undo_move` makes the White queenside castling
boolean increase from `false` back to `true` without any
`reset_to_initial_position`, so the claim quantified over all public
operations fails (undo restores the full pre-move rights by design). -/
theorem c7_counterexample :
    (make_move c7_state 7 0 6 0).1 = true ∧
    (make_move c7_state 7 0 6 0).2.castling_rights.white_queenside = false ∧
    (undo_move (make_move c7_state 7 0 6 0).2).1 = true ∧
    (undo_move (make_move c7_state 7 0 6 0).2).2.castling_rights.white_queenside = true :=
  ⟨by decide, by decide, by decide, by decide⟩

/-- Back rank of a color (spec wording for the castling conditions). -/
def castle_king_row (color : Color) : ℤ := if color = Color.BLACK then 0 else 7

/-- The squares strictly between king and rook, as columns: f/g files for
kingside, b/c/d files for queenside. -/
def castle_between_cols (kingside : Bool) : List ℤ := if kingside then [5, 6] else [1, 2, 3]

/-- The opposing color. -/
def enemy_color (color : Color) : Color :=
  if color = Color.WHITE then Color.BLACK else Color.WHITE

/-- C6 amended: `can_castle` returns true iff the right is held, the king
is not in check, and every square strictly between king and rook is both
empty and unattacked by the opponent — the amendment being that on the
queenside the attack test also covers the b-file square the king never
crosses (this is the condition the original claim ruled out). -/
theorem c6_amended (b : Board) (cr : CastlingRights) (color : Color) (kingside : Bool) :
    can_castle b cr color kingside = true ↔
      (cr.can_castle color kingside = true ∧
       is_king_in_check b color = false ∧
       ∀ c ∈ castle_between_cols kingside,
          get_piece b (castle_king_row color) c = none ∧
          is_square_attacked b (castle_king_row color) c (enemy_color color) = false) := by
  unfold can_castle castle_king_row castle_between_cols enemy_color
  cases color <;> cases kingside <;>
    simp [List.all_cons, Option.isNone_iff_eq_none, Bool.not_eq_true]

/-- Witness for C6 amended: in `c6_state` the kingside conditions all hold
concretely, and the theorem yields `can_castle … = true` there. -/
theorem c6_amended_witness :
    can_castle c6_state.board c6_state.castling_rights Color.WHITE true = true :=
  (c6_amended c6_state.board c6_state.castling_rights Color.WHITE true).mpr
    ⟨by decide, by decide, by decide⟩

/-! ## Pointwise order on castling rights, and stage lemmas -/

/-- Pointwise Boolean order on the four castling-rights flags
(`false ≤ true`): `rights_le a b` says every right held in `a` is held in
`b`. -/
def rights_le (a b : CastlingRights) : Prop :=
  a.white_kingside ≤ b.white_kingside ∧ a.white_queenside ≤ b.white_queenside ∧
  a.black_kingside ≤ b.black_kingside ∧ a.black_queenside ≤ b.black_queenside

theorem rights_le_refl (a : CastlingRights) : rights_le a a := by
  simp [rights_le]

theorem rights_le_trans {a b c : CastlingRights} (h1 : rights_le a b) (h2 : rights_le b c) :
    rights_le a c := by
  obtain ⟨x1, x2, x3, x4⟩ := h1
  obtain ⟨y1, y2, y3, y4⟩ := h2
  exact ⟨le_trans x1 y1, le_trans x2 y2, le_trans x3 y3, le_trans x4 y4⟩

theorem lose_castling_right_le (cr : CastlingRights) (color : Color) (k : Bool) :
    rights_le (cr.lose_castling_right color k) cr := by
  unfold CastlingRights.lose_castling_right
  cases color <;> cases k <;> simp [rights_le]

theorem lose_all_castling_rights_le (cr : CastlingRights) (color : Color) :
    rights_le (cr.lose_all_castling_rights color) cr := by
  unfold CastlingRights.lose_all_castling_rights
  cases color <;> simp [rights_le]

theorem execute_castling_rights_le (s : BoardState) (fr fc tr tc : ℤ) :
    rights_le (execute_castling s fr fc tr tc).castling_rights s.castling_rights := by
  unfold execute_castling
  dsimp only
  split
  · exact lose_all_castling_rights_le _ _
  · exact rights_le_refl _

theorem save_state_for_undo_castling_rights (s : BoardState) :
    (save_state_for_undo s).castling_rights = s.castling_rights := rfl

theorem invalidate_castling_rights (s : BoardState) :
    (invalidate_hanging_pieces_cache s).castling_rights = s.castling_rights := rfl

theorem apply_piece_move_rights_le (s : BoardState) (p : Piece) (cap : Option Piece)
    (fr fc tr tc : ℤ) :
    rights_le (apply_piece_move s p cap fr fc tr tc).castling_rights s.castling_rights := by
  unfold apply_piece_move
  dsimp only
  split
  · exact execute_castling_rights_le _ _ _ _ _
  · have step1 :
        rights_le
          (if p.type = PieceType.KING then
            s.castling_rights.lose_all_castling_rights p.color
          else if p.type = PieceType.ROOK then
            if fc = 0 then s.castling_rights.lose_castling_right p.color false
            else if fc = 7 then s.castling_rights.lose_castling_right p.color true
            else s.castling_rights
          else s.castling_rights) s.castling_rights := by
      split
      · exact lose_all_castling_rights_le _ _
      · split
        · split
          · exact lose_castling_right_le _ _ _
          · split
            · exact lose_castling_right_le _ _ _
            · exact rights_le_refl _
        · exact rights_le_refl _
    refine rights_le_trans ?_ step1
    split
    · split
      · split
        · exact lose_castling_right_le _ _ _
        · split
          · exact lose_castling_right_le _ _ _
          · exact rights_le_refl _
      · exact rights_le_refl _
    · exact rights_le_refl _

theorem apply_pawn_rules_castling_rights (s : BoardState) (m : Bool) (cap : Option Piece)
    (fr fc tr tc : ℤ) :
    (apply_pawn_rules s m cap fr fc tr tc).castling_rights = s.castling_rights := by
  unfold apply_pawn_rules
  dsimp only
  split
  · split <;> split <;> rfl
  · rfl

theorem apply_clock_castling_rights (s : BoardState) (p : Piece) (cap : Option Piece) :
    (apply_clock s p cap).castling_rights = s.castling_rights := by
  unfold apply_clock
  split <;> rfl

theorem apply_turn_switch_castling_rights (s : BoardState) :
    (apply_turn_switch s).castling_rights = s.castling_rights := by
  unfold apply_turn_switch
  dsimp only
  split <;> rfl

theorem apply_status_castling_rights (s : BoardState) :
    (apply_status s).castling_rights = s.castling_rights := by
  unfold apply_status
  dsimp only
  split <;> rfl

theorem apply_record_castling_rights (s : BoardState) (mv : Move) (fr fc tr tc : ℤ) :
    (apply_record s mv fr fc tr tc).castling_rights = s.castling_rights := rfl

theorem make_move_body_rights_le (s : BoardState) (p : Piece) (fr fc tr tc : ℤ) :
    rights_le (make_move_body s p fr fc tr tc).castling_rights s.castling_rights := by
  unfold make_move_body
  dsimp only
  rw [apply_record_castling_rights, apply_status_castling_rights,
    apply_turn_switch_castling_rights, apply_clock_castling_rights,
    apply_pawn_rules_castling_rights]
  have h := apply_piece_move_rights_le
    (invalidate_hanging_pieces_cache (save_state_for_undo s)) p
    (get_piece (invalidate_hanging_pieces_cache (save_state_for_undo s)).board tr tc)
    fr fc tr tc
  rwa [invalidate_castling_rights, save_state_for_undo_castling_rights] at h

theorem make_move_with_promotion_body_castling_rights (s : BoardState) (p : Piece)
    (fr fc tr tc : ℤ) (pt : PieceType) :
    (make_move_with_promotion_body s p fr fc tr tc pt).castling_rights = s.castling_rights := by
  unfold make_move_with_promotion_body
  dsimp only
  rw [apply_record_castling_rights, apply_status_castling_rights,
    apply_turn_switch_castling_rights, apply_clock_castling_rights,
    apply_pawn_rules_castling_rights]
  rfl

theorem make_move_rights_le (s : BoardState) (fr fc tr tc : ℤ) :
    rights_le (make_move s fr fc tr tc).2.castling_rights s.castling_rights := by
  unfold make_move
  dsimp only
  split
  · exact rights_le_refl _
  · split
    · exact rights_le_refl _
    · split
      · exact rights_le_refl _
      · exact make_move_body_rights_le _ _ _ _ _ _

theorem make_move_with_promotion_rights_le (s : BoardState) (fr fc tr tc : ℤ)
    (pt : PieceType) :
    rights_le (make_move_with_promotion s fr fc tr tc pt).2.castling_rights
      s.castling_rights := by
  unfold make_move_with_promotion
  dsimp only
  split
  · exact rights_le_refl _
  · split
    · exact rights_le_refl _
    · split
      · exact rights_le_refl _
      · rw [make_move_with_promotion_body_castling_rights]
        exact rights_le_refl _

/-! ## Requests to the two move entry points, and running sequences -/

/-- A call to one of the two move entry points. -/
inductive MoveReq where
  | norm (from_row from_col to_row to_col : ℤ)
  | promo (from_row from_col to_row to_col : ℤ) (promotion_piece : PieceType)

/-- Dispatch one request. -/
def apply_move_req (s : BoardState) : MoveReq → Bool × BoardState
  | MoveReq.norm fr fc tr tc => make_move s fr fc tr tc
  | MoveReq.promo fr fc tr tc pt => make_move_with_promotion s fr fc tr tc pt

/-- Run a sequence of requests, keeping the state of each call whether it
succeeded or was rejected. -/
def run_move_reqs (s : BoardState) : List MoveReq → BoardState
  | [] => s
  | r :: rs => run_move_reqs (apply_move_req s r).2 rs

theorem apply_move_req_rights_le (s : BoardState) (r : MoveReq) :
    rights_le (apply_move_req s r).2.castling_rights s.castling_rights := by
  cases r with
  | norm fr fc tr tc => exact make_move_rights_le s fr fc tr tc
  | promo fr fc tr tc pt => exact make_move_with_promotion_rights_le s fr fc tr tc pt

/-- C7 amended: over any sequence of `make_move` /
`make_move_with_promotion` calls (successful or rejected), each of the
four castling-rights booleans is non-increasing: every right held at the
end was already held at the start.  (`undo_move`, `redo_move` and
`reset_to_initial_position` are excluded: the counterexample shows undo
restores rights.) -/
theorem c7_amended (reqs : List MoveReq) (s : BoardState) :
    rights_le (run_move_reqs s reqs).castling_rights s.castling_rights := by
  induction reqs generalizing s with
  | nil => exact rights_le_refl _
  | cons r rs ih =>
    exact rights_le_trans (ih (apply_move_req s r).2) (apply_move_req_rights_le s r)

/-- Witness for C7 amended: the two-request sequence Ra1-a2 then an
(always rejected) promotion call, from `c7_state`, keeps the rights
non-increasing. -/
theorem c7_amended_witness :
    rights_le
      (run_move_reqs c7_state
        [MoveReq.norm 7 0 6 0, MoveReq.promo 0 0 0 0 PieceType.QUEEN]).castling_rights
      c7_state.castling_rights :=
  c7_amended [MoveReq.norm 7 0 6 0, MoveReq.promo 0 0 0 0 PieceType.QUEEN] c7_state

/-- C10: `get_possible_moves` never consults `current_turn` — changing the
side to move changes no answer — while both `make_move` and
`make_move_with_promotion` reject (returning `false` with the state
unchanged) whenever the piece at the origin does not have the color to
move. -/
theorem c10_turn_independence :
    (∀ (s : BoardState) (t : Color) (row col : ℤ),
        BoardState.get_possible_moves { s with current_turn := t } row col =
          s.get_possible_moves row col) ∧
    (∀ (s : BoardState) (fr fc tr tc : ℤ) (p : Piece) (pt : PieceType),
        s.get_piece fr fc = some p → p.color ≠ s.current_turn →
        make_move s fr fc tr tc = (false, s) ∧
        make_move_with_promotion s fr fc tr tc pt = (false, s)) := by
  constructor
  · intro s t row col
    rfl
  · intro s fr fc tr tc p pt h hc
    constructor
    · unfold make_move
      dsimp only
      split
      · rfl
      · rw [h]
        dsimp only
        rw [if_pos hc]
    · unfold make_move_with_promotion
      dsimp only
      split
      · rfl
      · rw [h]
        dsimp only
        rw [if_pos hc]

/-- Witness for C10: in the initial position, Black's a7 pawn has the same
move list whichever side is recorded to move, and White-to-move `make_move`
rejects moving it without changing the state. -/
theorem c10_turn_independence_witness :
    BoardState.get_possible_moves { initial_state with current_turn := Color.BLACK } 1 0 =
      initial_state.get_possible_moves 1 0 ∧
    make_move initial_state 1 0 2 0 = (false, initial_state) :=
  ⟨c10_turn_independence.1 initial_state Color.BLACK 1 0,
   (c10_turn_independence.2 initial_state 1 0 2 0 ⟨PieceType.PAWN, Color.BLACK, false⟩
     PieceType.QUEEN (by decide) (by decide)).1⟩

/-! ## Bounds of generated moves, and rejection atomicity -/

/-- A well-formedness assumption on the en-passant field: the recorded
target square (when present) lies on the board.  Every reachable state
satisfies it, since the mutators only store the midpoint of a double
push. -/
def ep_valid (ep : Option (ℤ × ℤ)) : Prop :=
  ∀ t ∈ ep, is_valid_square t.1 t.2 = true

theorem get_piece_some_valid {b : Board} {r c : ℤ} {p : Piece}
    (h : get_piece b r c = some p) : is_valid_square r c = true := by
  unfold get_piece at h
  by_cases hv : is_valid_square r c = true
  · exact hv
  · rw [if_neg (by simpa using hv)] at h
    exact absurd h (by simp)

theorem ray_moves_valid (b : Board) (color : Color) (r c dr dc : ℤ) :
    ∀ (fuel : Nat) (i : ℤ) (m : ℤ × ℤ), m ∈ ray_moves b color r c dr dc fuel i →
      is_valid_square m.1 m.2 = true := by
  intro fuel
  induction fuel with
  | zero => intro i m h; simp [ray_moves] at h
  | succ n ih =>
    intro i m h
    unfold ray_moves at h
    dsimp only at h
    by_cases hv : is_valid_square (r + i * dr) (c + i * dc) = true
    · rw [if_neg (by simpa using hv)] at h
      rcases hp : get_piece b (r + i * dr) (c + i * dc) with _ | p <;> rw [hp] at h
      · rcases List.mem_cons.mp h with h' | h'
        · rw [h']; exact hv
        · exact ih (i + 1) m h'
      · dsimp only at h
        by_cases hc : p.color ≠ color
        · rw [if_pos hc] at h
          rw [List.mem_singleton.mp h]
          exact hv
        · rw [if_neg hc] at h
          simp at h
    · rw [if_pos (by simpa using hv)] at h
      simp at h

theorem pawn_moves_valid (b : Board) (ep : Option (ℤ × ℤ)) (r c : ℤ) (color : Color)
    (hep : ep_valid ep) :
    ∀ m ∈ get_pawn_moves b ep r c color, is_valid_square m.1 m.2 = true := by
  intro m h
  unfold get_pawn_moves at h
  dsimp only at h
  rw [List.mem_append, List.mem_append] at h
  rcases h with (h | h) | h
  · by_cases h1 : is_valid_square (r + (if color = Color.WHITE then -1 else 1)) c = true ∧
        get_piece b (r + (if color = Color.WHITE then -1 else 1)) c = none
    · rw [if_pos h1] at h
      rcases List.mem_cons.mp h with h' | h'
      · rw [h']; exact h1.1
      · by_cases h2 : r = (if color = Color.WHITE then (6 : ℤ) else 1) ∧
            is_valid_square (r + 2 * (if color = Color.WHITE then -1 else 1)) c = true ∧
            get_piece b (r + 2 * (if color = Color.WHITE then -1 else 1)) c = none
        · rw [if_pos h2] at h'
          rw [List.mem_singleton.mp h']
          exact h2.2.1
        · rw [if_neg h2] at h'
          simp at h'
    · rw [if_neg h1] at h
      simp at h
  · rw [List.mem_filterMap] at h
    obtain ⟨dc, _, hdc⟩ := h
    by_cases hv : is_valid_square (r + (if color = Color.WHITE then -1 else 1)) (c + dc) = true
    · rw [if_pos hv] at hdc
      rcases hp : get_piece b (r + (if color = Color.WHITE then -1 else 1)) (c + dc)
        with _ | p <;> rw [hp] at hdc
      · exact absurd hdc (by simp)
      · dsimp only at hdc
        by_cases hc : p.color ≠ color
        · rw [if_pos hc] at hdc
          rw [← Option.some_inj.mp hdc]
          exact hv
        · rw [if_neg hc] at hdc
          exact absurd hdc (by simp)
    · rw [if_neg hv] at hdc
      exact absurd hdc (by simp)
  · rcases hepv : ep with _ | t <;> rw [hepv] at h
    · simp at h
    · dsimp only at h
      by_cases hc : r + (if color = Color.WHITE then -1 else 1) = t.1 ∧ (c - t.2).natAbs = 1
      · rw [if_pos hc] at h
        rw [List.mem_singleton.mp h]
        have := hep t (by rw [hepv]; rfl)
        simpa using this
      · rw [if_neg hc] at h
        simp at h

theorem empty_or_enemy_valid {b : Board} {r c : ℤ} {color : Color}
    (h : is_square_empty_or_enemy b r c color = true) : is_valid_square r c = true := by
  unfold is_square_empty_or_enemy at h
  by_cases hv : is_valid_square r c = true
  · exact hv
  · rw [if_pos (by simpa using hv)] at h
    exact absurd h (by simp)

theorem knight_moves_valid (b : Board) (r c : ℤ) (color : Color) :
    ∀ m ∈ get_knight_moves b r c color, is_valid_square m.1 m.2 = true := by
  intro m h
  unfold get_knight_moves at h
  rw [List.mem_filterMap] at h
  obtain ⟨d, _, hd⟩ := h
  by_cases he : is_square_empty_or_enemy b (r + d.1) (c + d.2) color = true
  · rw [if_pos he] at hd
    rw [← Option.some_inj.mp hd]
    exact empty_or_enemy_valid he
  · rw [if_neg he] at hd
    exact absurd hd (by simp)

theorem king_moves_valid (b : Board) (cr : CastlingRights) (r c : ℤ) (color : Color)
    (hrc : is_valid_square r c = true) :
    ∀ m ∈ get_king_moves b cr r c color, is_valid_square m.1 m.2 = true := by
  intro m h
  unfold get_king_moves at h
  rw [List.mem_append, List.mem_append] at h
  have hr6 : is_valid_square r 6 = true := by
    simp only [is_valid_square, decide_eq_true_eq] at hrc ⊢
    omega
  have hr2 : is_valid_square r 2 = true := by
    simp only [is_valid_square, decide_eq_true_eq] at hrc ⊢
    omega
  rcases h with (h | h) | h
  · rw [List.mem_filterMap] at h
    obtain ⟨d, _, hd⟩ := h
    by_cases he : is_square_empty_or_enemy b (r + d.1) (c + d.2) color = true
    · rw [if_pos he] at hd
      rw [← Option.some_inj.mp hd]
      exact empty_or_enemy_valid he
    · rw [if_neg he] at hd
      exact absurd hd (by simp)
  · by_cases hc : can_castle b cr color true = true
    · rw [if_pos hc] at h
      rw [List.mem_singleton.mp h]
      exact hr6
    · rw [if_neg hc] at h
      simp at h
  · by_cases hc : can_castle b cr color false = true
    · rw [if_pos hc] at h
      rw [List.mem_singleton.mp h]
      exact hr2
    · rw [if_neg hc] at h
      simp at h

/-- Every square returned by `get_possible_moves` lies on the board
(assuming a well-formed en-passant target). -/
theorem get_possible_moves_valid (b : Board) (ep : Option (ℤ × ℤ)) (cr : CastlingRights)
    (r c : ℤ) (hep : ep_valid ep) :
    ∀ m ∈ get_possible_moves b ep cr r c, is_valid_square m.1 m.2 = true := by
  intro m h
  unfold get_possible_moves at h
  rcases hp : get_piece b r c with _ | p <;> rw [hp] at h
  · simp at h
  · dsimp only at h
    rw [List.mem_filter] at h
    have hpm := h.1
    have hrc := get_piece_some_valid hp
    cases htype : p.type <;> rw [htype] at hpm
    · exact pawn_moves_valid b ep r c p.color hep m hpm
    · unfold get_rook_moves at hpm
      rw [List.mem_flatMap] at hpm
      obtain ⟨d, _, hd⟩ := hpm
      exact ray_moves_valid b p.color r c d.1 d.2 7 1 m hd
    · exact knight_moves_valid b r c p.color m hpm
    · unfold get_bishop_moves at hpm
      rw [List.mem_flatMap] at hpm
      obtain ⟨d, _, hd⟩ := hpm
      exact ray_moves_valid b p.color r c d.1 d.2 7 1 m hd
    · unfold get_queen_moves at hpm
      rw [List.mem_append] at hpm
      rcases hpm with hpm | hpm
      · unfold get_rook_moves at hpm
        rw [List.mem_flatMap] at hpm
        obtain ⟨d, _, hd⟩ := hpm
        exact ray_moves_valid b p.color r c d.1 d.2 7 1 m hd
      · unfold get_bishop_moves at hpm
        rw [List.mem_flatMap] at hpm
        obtain ⟨d, _, hd⟩ := hpm
        exact ray_moves_valid b p.color r c d.1 d.2 7 1 m hd
    · exact king_moves_valid b cr r c p.color hrc m hpm

theorem get_possible_moves_of_none {b : Board} {ep : Option (ℤ × ℤ)} {cr : CastlingRights}
    {fr fc : ℤ} (h : get_piece b fr fc = none) : get_possible_moves b ep cr fr fc = [] := by
  unfold get_possible_moves
  rw [h]

theorem get_piece_invalid {b : Board} {r c : ℤ} (h : is_valid_square r c = false) :
    get_piece b r c = none := by
  unfold get_piece
  rw [if_neg (by simp [h])]

/-- C9: rejection atomicity.  A `make_move` or `make_move_with_promotion`
call whose destination is not among the legal moves, whose origin is
empty, whose mover is not the side to move, or whose coordinates are out
of range, returns `false` with the state entirely unchanged; likewise an
out-of-range `get_piece` returns `none` and an out-of-range `set_piece`
changes nothing. -/
theorem c9_rejection_atomicity :
    (∀ (s : BoardState) (fr fc tr tc : ℤ) (pt : PieceType),
      ep_valid s.en_passant_target →
      ((tr, tc) ∉ s.get_possible_moves fr fc ∨
        s.get_piece fr fc = none ∨
        (∃ p, s.get_piece fr fc = some p ∧ p.color ≠ s.current_turn) ∨
        is_valid_square fr fc = false ∨ is_valid_square tr tc = false) →
      make_move s fr fc tr tc = (false, s) ∧
      make_move_with_promotion s fr fc tr tc pt = (false, s)) ∧
    (∀ (s : BoardState) (r c : ℤ), is_valid_square r c = false → s.get_piece r c = none) ∧
    (∀ (s : BoardState) (r c : ℤ) (p : Option Piece), is_valid_square r c = false →
      s.set_piece r c p = s) := by
  refine ⟨?_, ?_, ?_⟩
  · intro s fr fc tr tc pt hep hbad
    have main : (tr, tc) ∉ s.get_possible_moves fr fc ∨
        (∃ p, s.get_piece fr fc = some p ∧ p.color ≠ s.current_turn) := by
      rcases hbad with h | h | h | h | h
      · exact Or.inl h
      · left
        unfold BoardState.get_possible_moves
        rw [get_possible_moves_of_none h]
        simp
      · exact Or.inr h
      · left
        unfold BoardState.get_possible_moves
        rw [get_possible_moves_of_none (get_piece_invalid h)]
        simp
      · left
        intro hmem
        have := get_possible_moves_valid s.board s.en_passant_target s.castling_rights
          fr fc hep (tr, tc) hmem
        rw [h] at this
        exact absurd this (by simp)
    rcases main with hmem | ⟨p, hp, hc⟩
    · constructor
      · unfold make_move
        dsimp only
        rw [if_pos hmem]
      · unfold make_move_with_promotion
        dsimp only
        rw [if_pos hmem]
    · constructor
      · unfold make_move
        dsimp only
        split
        · rfl
        · rw [hp]
          dsimp only
          rw [if_pos hc]
      · unfold make_move_with_promotion
        dsimp only
        split
        · rfl
        · rw [hp]
          dsimp only
          rw [if_pos hc]
  · intro s r c h
    exact get_piece_invalid h
  · intro s r c p h
    unfold BoardState.set_piece Chess.set_piece
    rw [if_neg (by simp [h])]
    cases s
    rfl

/-- Witness for C9: a knight-jump request by a pawn, an out-of-range read
and an out-of-range write, all on the initial position. -/
theorem c9_rejection_atomicity_witness :
    make_move initial_state 6 0 3 3 = (false, initial_state) ∧
    initial_state.get_piece (-1) 0 = none ∧
    initial_state.set_piece 8 0 none = initial_state :=
  ⟨(c9_rejection_atomicity.1 initial_state 6 0 3 3 PieceType.QUEEN
      (fun t ht => absurd ht (Option.not_mem_none t)) (Or.inl (by decide))).1,
   c9_rejection_atomicity.2.1 initial_state (-1) 0 (by decide),
   c9_rejection_atomicity.2.2 initial_state 8 0 none (by decide)⟩

/-! ## History-manager machinery: snapshots, stacks, undo/redo behaviour -/

structure FenFields where
  board : Board
  current_turn : Color
  castling_rights : CastlingRights
  en_passant_target : Option (ℤ × ℤ)
  halfmove_clock : Nat
  fullmove_number : Nat
deriving DecidableEq

def fen_fields (s : BoardState) : FenFields :=
  ⟨s.board, s.current_turn, s.castling_rights, s.en_passant_target,
   s.halfmove_clock, s.fullmove_number⟩

theorem get_fen_position_congr {s t : BoardState} (h : fen_fields s = fen_fields t) :
    get_fen_position s = get_fen_position t := by
  unfold get_fen_position
  injection h with h1 h2 h3 h4 h5 h6
  rw [h1, h2, h3, h4, h5, h6]

theorem fen_fields_strip (s : BoardState) : fen_fields (strip_stacks s) = fen_fields s := rfl

theorem undo_move_spec (s : BoardState) (us : List BoardState) (p : BoardState)
    (h : s.undo_stack = us ++ [p]) :
    (undo_move s).1 = true ∧
    fen_fields (undo_move s).2 = fen_fields p ∧
    (undo_move s).2.undo_stack = us ∧
    (undo_move s).2.redo_stack = s.redo_stack ++ [strip_stacks s] := by
  unfold undo_move
  rw [h, List.getLast?_concat]
  refine ⟨rfl, rfl, ?_, rfl⟩
  dsimp only
  rw [List.dropLast_concat]

theorem redo_move_spec (s : BoardState) (rs : List BoardState) (p : BoardState)
    (h : s.redo_stack = rs ++ [p]) :
    (redo_move s).1 = true ∧
    fen_fields (redo_move s).2 = fen_fields p ∧
    (redo_move s).2.redo_stack = rs ∧
    (redo_move s).2.undo_stack = s.undo_stack ++ [strip_stacks s] := by
  unfold redo_move
  rw [h, List.getLast?_concat]
  refine ⟨rfl, rfl, ?_, rfl⟩
  dsimp only
  rw [List.dropLast_concat]

theorem undo_move_fail (s : BoardState) (h : s.undo_stack = []) :
    undo_move s = (false, s) := by
  unfold undo_move
  rw [h]
  rfl

theorem redo_move_fail (s : BoardState) (h : s.redo_stack = []) :
    redo_move s = (false, s) := by
  unfold redo_move
  rw [h]
  rfl

def cap_push (x : BoardState) (u : List BoardState) : List BoardState :=
  if (u ++ [x]).length > 50 then (u ++ [x]).tail else u ++ [x]

theorem save_state_for_undo_stacks (s : BoardState) :
    (save_state_for_undo s).undo_stack = cap_push (strip_stacks s) s.undo_stack ∧
    (save_state_for_undo s).redo_stack = [] := ⟨rfl, rfl⟩

theorem execute_castling_stacks (s : BoardState) (fr fc tr tc : ℤ) :
    (execute_castling s fr fc tr tc).undo_stack = s.undo_stack ∧
    (execute_castling s fr fc tr tc).redo_stack = s.redo_stack := by
  unfold execute_castling
  dsimp only
  constructor <;> rfl

theorem apply_piece_move_stacks (s : BoardState) (p : Piece) (cap : Option Piece)
    (fr fc tr tc : ℤ) :
    (apply_piece_move s p cap fr fc tr tc).undo_stack = s.undo_stack ∧
    (apply_piece_move s p cap fr fc tr tc).redo_stack = s.redo_stack := by
  unfold apply_piece_move
  dsimp only
  split
  · exact execute_castling_stacks _ _ _ _ _
  · constructor <;> rfl

theorem apply_pawn_rules_stacks (s : BoardState) (m : Bool) (cap : Option Piece)
    (fr fc tr tc : ℤ) :
    (apply_pawn_rules s m cap fr fc tr tc).undo_stack = s.undo_stack ∧
    (apply_pawn_rules s m cap fr fc tr tc).redo_stack = s.redo_stack := by
  unfold apply_pawn_rules
  dsimp only
  split
  · constructor <;> (split <;> split <;> rfl)
  · constructor <;> rfl

theorem apply_clock_stacks (s : BoardState) (p : Piece) (cap : Option Piece) :
    (apply_clock s p cap).undo_stack = s.undo_stack ∧
    (apply_clock s p cap).redo_stack = s.redo_stack := by
  unfold apply_clock
  constructor <;> (split <;> rfl)

theorem apply_turn_switch_stacks (s : BoardState) :
    (apply_turn_switch s).undo_stack = s.undo_stack ∧
    (apply_turn_switch s).redo_stack = s.redo_stack := by
  unfold apply_turn_switch
  dsimp only
  constructor <;> (split <;> rfl)

theorem apply_status_stacks (s : BoardState) :
    (apply_status s).undo_stack = s.undo_stack ∧
    (apply_status s).redo_stack = s.redo_stack := by
  unfold apply_status
  dsimp only
  constructor <;> (split <;> rfl)

theorem apply_record_stacks (s : BoardState) (mv : Move) (fr fc tr tc : ℤ) :
    (apply_record s mv fr fc tr tc).undo_stack = s.undo_stack ∧
    (apply_record s mv fr fc tr tc).redo_stack = s.redo_stack := ⟨rfl, rfl⟩

theorem invalidate_stacks (s : BoardState) :
    (invalidate_hanging_pieces_cache s).undo_stack = s.undo_stack ∧
    (invalidate_hanging_pieces_cache s).redo_stack = s.redo_stack := ⟨rfl, rfl⟩

theorem make_move_body_stacks (s : BoardState) (p : Piece) (fr fc tr tc : ℤ) :
    (make_move_body s p fr fc tr tc).undo_stack = cap_push (strip_stacks s) s.undo_stack ∧
    (make_move_body s p fr fc tr tc).redo_stack = [] := by
  unfold make_move_body
  dsimp only
  rw [(apply_record_stacks _ _ _ _ _ _).1, (apply_record_stacks _ _ _ _ _ _).2,
    (apply_status_stacks _).1, (apply_status_stacks _).2,
    (apply_turn_switch_stacks _).1, (apply_turn_switch_stacks _).2,
    (apply_clock_stacks _ _ _).1, (apply_clock_stacks _ _ _).2,
    (apply_pawn_rules_stacks _ _ _ _ _ _ _).1, (apply_pawn_rules_stacks _ _ _ _ _ _ _).2,
    (apply_piece_move_stacks _ _ _ _ _ _ _).1, (apply_piece_move_stacks _ _ _ _ _ _ _).2,
    (invalidate_stacks _).1, (invalidate_stacks _).2]
  exact save_state_for_undo_stacks s

theorem make_move_with_promotion_body_stacks (s : BoardState) (p : Piece) (fr fc tr tc : ℤ)
    (pt : PieceType) :
    (make_move_with_promotion_body s p fr fc tr tc pt).undo_stack =
      cap_push (strip_stacks s) s.undo_stack ∧
    (make_move_with_promotion_body s p fr fc tr tc pt).redo_stack = [] := by
  unfold make_move_with_promotion_body
  dsimp only
  rw [(apply_record_stacks _ _ _ _ _ _).1, (apply_record_stacks _ _ _ _ _ _).2,
    (apply_status_stacks _).1, (apply_status_stacks _).2,
    (apply_turn_switch_stacks _).1, (apply_turn_switch_stacks _).2,
    (apply_clock_stacks _ _ _).1, (apply_clock_stacks _ _ _).2,
    (apply_pawn_rules_stacks _ _ _ _ _ _ _).1, (apply_pawn_rules_stacks _ _ _ _ _ _ _).2]
  exact save_state_for_undo_stacks s

theorem apply_move_req_success_stacks (s : BoardState) (r : MoveReq) (s' : BoardState)
    (h : apply_move_req s r = (true, s')) :
    s'.undo_stack = cap_push (strip_stacks s) s.undo_stack ∧ s'.redo_stack = [] := by
  cases r with
  | norm fr fc tr tc =>
    unfold apply_move_req make_move at h
    dsimp only at h
    split at h
    · exact absurd (congrArg Prod.fst h) (by simp)
    · split at h
      · exact absurd (congrArg Prod.fst h) (by simp)
      · split at h
        · exact absurd (congrArg Prod.fst h) (by simp)
        · have h2 := congrArg Prod.snd h
          dsimp only at h2
          rw [← h2]
          exact make_move_body_stacks _ _ _ _ _ _
  | promo fr fc tr tc pt =>
    unfold apply_move_req make_move_with_promotion at h
    dsimp only at h
    split at h
    · exact absurd (congrArg Prod.fst h) (by simp)
    · split at h
      · exact absurd (congrArg Prod.fst h) (by simp)
      · split at h
        · exact absurd (congrArg Prod.fst h) (by simp)
        · have h2 := congrArg Prod.snd h
          dsimp only at h2
          rw [← h2]
          exact make_move_with_promotion_body_stacks _ _ _ _ _ _ _

inductive Op where
  | move (r : MoveReq)
  | undo
  | redo
  | reset

def apply_op (s : BoardState) : Op → BoardState
  | Op.move r => (apply_move_req s r).2
  | Op.undo => (undo_move s).2
  | Op.redo => (redo_move s).2
  | Op.reset => reset_to_initial_position s

def stacks_ok (s : BoardState) : Prop :=
  s.undo_stack.length + s.redo_stack.length ≤ 50 ∧
  (∀ t ∈ s.undo_stack, t.undo_stack = [] ∧ t.redo_stack = []) ∧
  (∀ t ∈ s.redo_stack, t.undo_stack = [] ∧ t.redo_stack = [])

theorem cap_push_length (x : BoardState) (u : List BoardState) :
    (cap_push x u).length = if u.length + 1 > 50 then u.length else u.length + 1 := by
  unfold cap_push
  simp only [List.length_append, List.length_singleton]
  split <;> rename_i h
  · rw [List.length_tail, List.length_append]
    simp
  · rw [List.length_append]
    simp

theorem cap_push_sub (x : BoardState) (u : List BoardState) :
    ∀ t ∈ cap_push x u, t ∈ u ++ [x] := by
  unfold cap_push
  split
  · intro t ht
    exact List.mem_of_mem_tail ht
  · intro t ht
    exact ht

theorem apply_op_stacks_ok (s : BoardState) (op : Op) (h : stacks_ok s) :
    stacks_ok (apply_op s op) := by
  obtain ⟨hlen, hu, hr⟩ := h
  cases op with
  | move r =>
    show stacks_ok (apply_move_req s r).2
    rcases hres : apply_move_req s r with ⟨ok, s'⟩
    cases ok
    · -- rejected: the state is returned unchanged
      have : s' = s := by
        cases r with
        | norm fr fc tr tc =>
          unfold apply_move_req make_move at hres
          dsimp only at hres
          split at hres
          · exact (congrArg Prod.snd hres).symm
          · split at hres
            · exact (congrArg Prod.snd hres).symm
            · split at hres
              · exact (congrArg Prod.snd hres).symm
              · exact absurd (congrArg Prod.fst hres) (by simp)
        | promo fr fc tr tc pt =>
          unfold apply_move_req make_move_with_promotion at hres
          dsimp only at hres
          split at hres
          · exact (congrArg Prod.snd hres).symm
          · split at hres
            · exact (congrArg Prod.snd hres).symm
            · split at hres
              · exact (congrArg Prod.snd hres).symm
              · exact absurd (congrArg Prod.fst hres) (by simp)
      dsimp only
      rw [this]
      exact ⟨hlen, hu, hr⟩
    · dsimp only
      obtain ⟨hsu, hsr⟩ := apply_move_req_success_stacks s r s' hres
      refine ⟨?_, ?_, ?_⟩
      · rw [hsu, hsr, cap_push_length]
        simp only [List.length_nil]
        split <;> omega
      · intro t ht
        rw [hsu] at ht
        rcases List.mem_append.mp (cap_push_sub _ _ t ht) with h' | h'
        · exact hu t h'
        · rw [List.mem_singleton.mp h']
          exact ⟨rfl, rfl⟩
      · intro t ht
        rw [hsr] at ht
        simp at ht
  | undo =>
    show stacks_ok (undo_move s).2
    rcases List.eq_nil_or_concat s.undo_stack with hnil | ⟨us, p, hus⟩
    · rw [undo_move_fail s hnil]
      exact ⟨hlen, hu, hr⟩
    · rw [List.concat_eq_append] at hus
      obtain ⟨-, -, hsu, hsr⟩ := undo_move_spec s us p hus
      refine ⟨?_, ?_, ?_⟩
      · rw [hsu, hsr, List.length_append]
        rw [hus, List.length_append] at hlen
        simp at hlen ⊢
        omega
      · intro t ht
        rw [hsu] at ht
        exact hu t (by rw [hus]; exact List.mem_append_left _ ht)
      · intro t ht
        rw [hsr] at ht
        rcases List.mem_append.mp ht with h' | h'
        · exact hr t h'
        · rw [List.mem_singleton.mp h']
          exact ⟨rfl, rfl⟩
  | redo =>
    show stacks_ok (redo_move s).2
    rcases List.eq_nil_or_concat s.redo_stack with hnil | ⟨rs, p, hrs⟩
    · rw [redo_move_fail s hnil]
      exact ⟨hlen, hu, hr⟩
    · rw [List.concat_eq_append] at hrs
      obtain ⟨-, -, hsr, hsu⟩ := redo_move_spec s rs p hrs
      refine ⟨?_, ?_, ?_⟩
      · rw [hsu, hsr, List.length_append]
        rw [hrs, List.length_append] at hlen
        simp at hlen ⊢
        omega
      · intro t ht
        rw [hsu] at ht
        rcases List.mem_append.mp ht with h' | h'
        · exact hu t h'
        · rw [List.mem_singleton.mp h']
          exact ⟨rfl, rfl⟩
      · intro t ht
        rw [hsr] at ht
        exact hr t (by rw [hrs]; exact List.mem_append_left _ ht)
  | reset =>
    refine ⟨?_, ?_, ?_⟩ <;> simp [apply_op, reset_to_initial_position]

def run_moves : BoardState → List MoveReq → Option BoardState
  | s, [] => some s
  | s, r :: rs =>
    match apply_move_req s r with
    | (true, s') => run_moves s' rs
    | (false, _) => none

def undo_iter : Nat → BoardState → BoardState
  | 0, s => s
  | k + 1, s => undo_iter k (undo_move s).2

def redo_iter : Nat → BoardState → BoardState
  | 0, s => s
  | k + 1, s => redo_iter k (redo_move s).2

theorem run_moves_undo_length :
    ∀ (reqs : List MoveReq) (s s' : BoardState), s.undo_stack.length ≤ 50 →
      run_moves s reqs = some s' →
      s'.undo_stack.length = min (s.undo_stack.length + reqs.length) 50 := by
  intro reqs
  induction reqs with
  | nil =>
    intro s s' hle h
    unfold run_moves at h
    rw [← Option.some_inj.mp h]
    simp
    omega
  | cons r rs ih =>
    intro s s' hle h
    unfold run_moves at h
    rcases hres : apply_move_req s r with ⟨ok, s1⟩
    rw [hres] at h
    cases ok
    · exact absurd h (by simp)
    · dsimp only at h
      obtain ⟨hsu, -⟩ := apply_move_req_success_stacks s r s1 hres
      have hlen1 : s1.undo_stack.length =
          if s.undo_stack.length + 1 > 50 then s.undo_stack.length
          else s.undo_stack.length + 1 := by
        rw [hsu, cap_push_length]
      have hle1 : s1.undo_stack.length ≤ 50 := by
        rw [hlen1]; split <;> omega
      have := ih s1 s' hle1 h
      rw [this, hlen1]
      split <;> (simp; omega)

theorem undo_iter_length :
    ∀ (k : Nat) (s : BoardState), k ≤ s.undo_stack.length →
      (undo_iter k s).undo_stack.length = s.undo_stack.length - k := by
  intro k
  induction k with
  | zero => intro s _; simp [undo_iter]
  | succ n ih =>
    intro s hk
    rcases List.eq_nil_or_concat s.undo_stack with hnil | ⟨us, p, hus⟩
    · rw [hnil] at hk; simp at hk
    · rw [List.concat_eq_append] at hus
      obtain ⟨-, -, hsu, -⟩ := undo_move_spec s us p hus
      unfold undo_iter
      have hlen : us.length = s.undo_stack.length - 1 := by
        rw [hus]; simp
      have := ih (undo_move s).2 (by rw [hsu, hlen]; rw [hus] at hk; simp at hk; omega)
      rw [this, hsu, hlen]
      omega

theorem bounded_undo_consequence (s s' : BoardState) (reqs : List MoveReq)
    (h0 : s.undo_stack = []) (h51 : reqs.length = 51) (hrun : run_moves s reqs = some s') :
    s'.undo_stack.length = 50 ∧
    (∀ k, k < 50 → (undo_iter k s').can_undo = true) ∧
    (undo_iter 50 s').can_undo = false := by
  have hlen : s'.undo_stack.length = 50 := by
    have := run_moves_undo_length reqs s s' (by rw [h0]; simp) hrun
    rw [h0, h51] at this
    simpa using this
  refine ⟨hlen, ?_, ?_⟩
  · intro k hk
    have := undo_iter_length k s' (by omega)
    unfold BoardState.can_undo
    rw [this, hlen]
    simp
    omega
  · have := undo_iter_length 50 s' (by omega)
    unfold BoardState.can_undo
    rw [this, hlen]
    simp

def c8_state : BoardState :=
  { board := [[e, e, e, e, some ⟨PieceType.KING, Color.BLACK, false⟩, e, e, e],
              er, er, er, er, er, er,
              [some ⟨PieceType.ROOK, Color.WHITE, false⟩, e, e, e,
               some ⟨PieceType.KING, Color.WHITE, false⟩, e, e, e]],
    undo_stack := [], redo_stack := [] }

/-- C8: the bounded-undo invariant.  (1) A fresh state satisfies
`stacks_ok` (stack lengths sum to at most 50; every stored snapshot has
empty stacks of its own); (2) every public operation preserves it, so the
undo stack never exceeds 50 snapshots; (3) a successful move clears the
redo stack and pushes the stripped snapshot with oldest-first eviction
(`cap_push` drops the head exactly when the 50-cap is exceeded); (4) undo
appends to the redo stack rather than clearing it; (5) redo only pops the
redo stack; (6) after 51 successful moves from empty stacks, exactly the
first 50 undo steps can succeed and the 51st cannot. -/
theorem c8_bounded_undo :
    stacks_ok initial_state ∧
    (∀ (s : BoardState) (op : Op), stacks_ok s →
        stacks_ok (apply_op s op) ∧ (apply_op s op).undo_stack.length ≤ 50) ∧
    (∀ (s s' : BoardState) (r : MoveReq), apply_move_req s r = (true, s') →
        s'.redo_stack = [] ∧
        s'.undo_stack = cap_push (strip_stacks s) s.undo_stack) ∧
    (∀ (s : BoardState) (us : List BoardState) (p : BoardState),
        s.undo_stack = us ++ [p] →
        (undo_move s).1 = true ∧
        (undo_move s).2.redo_stack = s.redo_stack ++ [strip_stacks s]) ∧
    (∀ (s : BoardState) (rs : List BoardState) (p : BoardState),
        s.redo_stack = rs ++ [p] →
        (redo_move s).1 = true ∧ (redo_move s).2.redo_stack = rs) ∧
    (∀ (s s' : BoardState) (reqs : List MoveReq),
        s.undo_stack = [] → reqs.length = 51 → run_moves s reqs = some s' →
        s'.undo_stack.length = 50 ∧
        (∀ k, k < 50 → (undo_iter k s').can_undo = true) ∧
        (undo_iter 50 s').can_undo = false) := by
  refine ⟨?_, ?_, ?_, ?_, ?_, ?_⟩
  · refine ⟨by simp [initial_state], ?_, ?_⟩ <;> (intro t ht; simp [initial_state] at ht)
  · intro s op h
    have h' := apply_op_stacks_ok s op h
    refine ⟨h', ?_⟩
    have := h'.1
    omega
  · intro s s' r h
    obtain ⟨hu, hr⟩ := apply_move_req_success_stacks s r s' h
    exact ⟨hr, hu⟩
  · intro s us p h
    obtain ⟨h1, -, -, h4⟩ := undo_move_spec s us p h
    exact ⟨h1, h4⟩
  · intro s rs p h
    obtain ⟨h1, -, h3, -⟩ := redo_move_spec s rs p h
    exact ⟨h1, h3⟩
  · exact bounded_undo_consequence

/-- Witness for C8: the invariant survives an undo on the fresh state, and
a concrete successful rook move from `c8_state` clears the redo stack and
pushes its snapshot. -/
theorem c8_bounded_undo_witness :
    (stacks_ok (apply_op initial_state Op.undo) ∧
      (apply_op initial_state Op.undo).undo_stack.length ≤ 50) ∧
    ((apply_move_req c8_state (MoveReq.norm 7 0 6 0)).2.redo_stack = [] ∧
      (apply_move_req c8_state (MoveReq.norm 7 0 6 0)).2.undo_stack =
        cap_push (strip_stacks c8_state) c8_state.undo_stack) :=
  ⟨c8_bounded_undo.2.1 initial_state Op.undo
      (by refine ⟨by simp [initial_state], ?_, ?_⟩ <;>
        (intro t ht; simp [initial_state] at ht)),
   c8_bounded_undo.2.2.1 c8_state (apply_move_req c8_state (MoveReq.norm 7 0 6 0)).2
      (MoveReq.norm 7 0 6 0) rfl⟩

theorem cap_push_no_evict (x : BoardState) (u : List BoardState) (h : u.length + 1 ≤ 50) :
    cap_push x u = u ++ [x] := by
  unfold cap_push
  rw [if_neg]
  simp
  omega

theorem run_spec :
    ∀ (reqs : List MoveReq) (s sN : BoardState),
      run_moves s reqs = some sN → s.undo_stack.length + reqs.length ≤ 50 →
      ∃ snaps : List BoardState,
        sN.undo_stack = s.undo_stack ++ snaps ∧
        snaps.length = reqs.length ∧
        (reqs ≠ [] →
          (snaps.map fen_fields).head? = some (fen_fields s) ∧ sN.redo_stack = []) := by
  intro reqs
  induction reqs with
  | nil =>
    intro s sN hrun _
    refine ⟨[], ?_, rfl, by simp⟩
    unfold run_moves at hrun
    rw [← Option.some_inj.mp hrun]
    simp
  | cons r rs ih =>
    intro s sN hrun hle
    unfold run_moves at hrun
    rcases hres : apply_move_req s r with ⟨ok, s1⟩
    rw [hres] at hrun
    cases ok
    · exact absurd hrun (by simp)
    · dsimp only at hrun
      obtain ⟨hsu, hsr⟩ := apply_move_req_success_stacks s r s1 hres
      simp only [List.length_cons] at hle
      have hsu' : s1.undo_stack = s.undo_stack ++ [strip_stacks s] := by
        rw [hsu, cap_push_no_evict _ _ (by omega)]
      obtain ⟨snaps', h1, h2, h3⟩ := ih s1 sN hrun
        (by rw [hsu', List.length_append]; simp; omega)
      refine ⟨strip_stacks s :: snaps', ?_, by simp [h2], ?_⟩
      · rw [h1, hsu', List.append_assoc]
        rfl
      · intro _
        refine ⟨by simp [fen_fields_strip], ?_⟩
        rcases hrs : rs with _ | ⟨r2, rs2⟩
        · rw [hrs] at hrun
          unfold run_moves at hrun
          rw [← Option.some_inj.mp hrun, hsr]
        · exact (h3 (by rw [hrs]; simp)).2

theorem undo_phase :
    ∀ (rsuf pre : List BoardState) (s : BoardState),
      s.undo_stack = pre ++ rsuf.reverse →
      (undo_iter rsuf.length s).undo_stack = pre ∧
      fen_fields (undo_iter rsuf.length s) =
        ((rsuf.map fen_fields).getLast?).getD (fen_fields s) ∧
      (undo_iter rsuf.length s).redo_stack.map fen_fields =
        s.redo_stack.map fen_fields ++ (fen_fields s :: rsuf.map fen_fields).dropLast := by
  intro rsuf
  induction rsuf with
  | nil =>
    intro pre s h
    refine ⟨by simpa using h, rfl, by simp [undo_iter]⟩
  | cons p rest ih =>
    intro pre s h
    have h' : s.undo_stack = (pre ++ rest.reverse) ++ [p] := by
      rw [h]
      simp [List.reverse_cons, List.append_assoc]
    obtain ⟨-, hfen, hsu, hsr⟩ := undo_move_spec s (pre ++ rest.reverse) p h'
    obtain ⟨ih1, ih2, ih3⟩ := ih pre (undo_move s).2 hsu
    have hstep : undo_iter (p :: rest).length s = undo_iter rest.length (undo_move s).2 := by
      rfl
    refine ⟨by rw [hstep]; exact ih1, ?_, ?_⟩
    · rw [hstep, ih2, hfen]
      rcases rest with _ | ⟨q, rest2⟩
      · simp
      · simp only [List.map_cons, List.getLast?_cons_cons]
        rcases hlast : ((fen_fields q :: rest2.map fen_fields).getLast?) with _ | z
        · exact absurd hlast (by simp)
        · simp
    · rw [hstep, ih3, hsr, hfen]
      simp [fen_fields_strip, List.dropLast_cons_of_ne_nil, List.append_assoc]

theorem redo_phase :
    ∀ (rsuf pre : List BoardState) (s : BoardState),
      s.redo_stack = pre ++ rsuf.reverse →
      fen_fields (redo_iter rsuf.length s) =
        ((rsuf.map fen_fields).getLast?).getD (fen_fields s) := by
  intro rsuf
  induction rsuf with
  | nil =>
    intro pre s _
    rfl
  | cons p rest ih =>
    intro pre s h
    have h' : s.redo_stack = (pre ++ rest.reverse) ++ [p] := by
      rw [h]
      simp [List.reverse_cons, List.append_assoc]
    obtain ⟨-, hfen, hsr, -⟩ := redo_move_spec s (pre ++ rest.reverse) p h'
    have hstep : redo_iter (p :: rest).length s = redo_iter rest.length (redo_move s).2 := by
      rfl
    rw [hstep, ih pre (redo_move s).2 hsr, hfen]
    rcases rest with _ | ⟨q, rest2⟩
    · simp
    · simp only [List.map_cons, List.getLast?_cons_cons]
      rcases hlast : ((fen_fields q :: rest2.map fen_fields).getLast?) with _ | z
      · exact absurd hlast (by simp)
      · simp

/-- C4: undo/redo round trip.  For any sequence of at most 50 successful
moves from a state with an empty undo stack, N undos bring
`get_fen_position` back to the pre-sequence value and N redos then bring
it back to the post-sequence value. -/
theorem c4_undo_redo_round_trip (reqs : List MoveReq) (s0 sN : BoardState)
    (hu0 : s0.undo_stack = [])
    (hlen : reqs.length ≤ 50) (hrun : run_moves s0 reqs = some sN) :
    get_fen_position (undo_iter reqs.length sN) = get_fen_position s0 ∧
    get_fen_position (redo_iter reqs.length (undo_iter reqs.length sN)) =
      get_fen_position sN := by
  obtain ⟨snaps, h1, h2, h3⟩ := run_spec reqs s0 sN hrun (by rw [hu0]; simpa using hlen)
  rcases eq_or_ne reqs [] with hnil | hne
  · subst hnil
    unfold run_moves at hrun
    have heq : s0 = sN := Option.some_inj.mp hrun
    subst heq
    exact ⟨rfl, rfl⟩
  · obtain ⟨hhead, hredo⟩ := h3 hne
    have hstack : sN.undo_stack = [] ++ (snaps.reverse).reverse := by
      rw [h1, hu0]
      simp
    obtain ⟨u1, u2, u3⟩ := undo_phase snaps.reverse [] sN hstack
    have hlensnaps : snaps.reverse.length = reqs.length := by simp [h2]
    rw [hlensnaps] at u1 u2 u3
    have hfenu : fen_fields (undo_iter reqs.length sN) = fen_fields s0 := by
      rw [u2, List.map_reverse, List.getLast?_reverse, hhead]
      rfl
    refine ⟨get_fen_position_congr hfenu, ?_⟩
    have hsnne : snaps ≠ [] := by
      intro hh
      rw [hh] at h2
      simp at h2
      exact hne (List.length_eq_zero.mp h2.symm)
    have hredo_map : (undo_iter reqs.length sN).redo_stack.map fen_fields =
        (fen_fields sN :: (snaps.reverse.map fen_fields)).dropLast := by
      rw [u3, hredo]
      simp
    have hrlen : (undo_iter reqs.length sN).redo_stack.length = reqs.length := by
      have hl := congrArg List.length hredo_map
      rw [List.length_map] at hl
      rw [hl, List.length_dropLast, List.length_cons, List.length_map,
        List.length_reverse, h2]
      simp
    have hstack2 : (undo_iter reqs.length sN).redo_stack =
        [] ++ ((undo_iter reqs.length sN).redo_stack.reverse).reverse := by simp
    have hfenr := redo_phase (undo_iter reqs.length sN).redo_stack.reverse []
      (undo_iter reqs.length sN) hstack2
    rw [List.length_reverse, hrlen, List.map_reverse, List.getLast?_reverse] at hfenr
    have hhead2 : ((undo_iter reqs.length sN).redo_stack.map fen_fields).head? =
        some (fen_fields sN) := by
      rw [hredo_map, List.dropLast_cons_of_ne_nil]
      · rfl
      · simpa using hsnne
    rw [hhead2] at hfenr
    exact get_fen_position_congr hfenr

/-- Rook-move position for the C4 witness (White Ke1/Ra1, Black Ke8). -/
def c4_state : BoardState :=
  { board := [[e, e, e, e, some ⟨PieceType.KING, Color.BLACK, false⟩, e, e, e],
              er, er, er, er, er, er,
              [some ⟨PieceType.ROOK, Color.WHITE, false⟩, e, e, e,
               some ⟨PieceType.KING, Color.WHITE, false⟩, e, e, e]],
    undo_stack := [], redo_stack := [] }

/-- The state after Ra1-a2 from `c4_state`. -/
def c4_sN : BoardState := (apply_move_req c4_state (MoveReq.norm 7 0 6 0)).2

/-- Witness for C4: one rook move from `c4_state`, one undo, one redo. -/
theorem c4_undo_redo_round_trip_witness :
    get_fen_position (undo_iter 1 c4_sN) = get_fen_position c4_state ∧
    get_fen_position (redo_iter 1 (undo_iter 1 c4_sN)) = get_fen_position c4_sN :=
  c4_undo_redo_round_trip [MoveReq.norm 7 0 6 0] c4_state c4_sN rfl (by simp) rfl

/-! ## C3: relating the two move entry points -/

/-- Replace the three cache validity flags. -/
def with_flags (s : BoardState) (a b c : Bool) : BoardState :=
  { s with hanging_pieces_cache_valid := a,
           exchange_cache_valid := b,
           knight_fork_cache_valid := c }

theorem apply_pawn_rules_with_flags (s : BoardState) (m : Bool) (cap : Option Piece)
    (fr fc tr tc : ℤ) (a b c : Bool) :
    apply_pawn_rules (with_flags s a b c) m cap fr fc tr tc =
      with_flags (apply_pawn_rules s m cap fr fc tr tc) a b c := by
  unfold apply_pawn_rules with_flags
  dsimp only
  split
  · split <;> split <;> rfl
  · rfl

theorem apply_clock_with_flags (s : BoardState) (p : Piece) (cap : Option Piece)
    (a b c : Bool) :
    apply_clock (with_flags s a b c) p cap = with_flags (apply_clock s p cap) a b c := by
  unfold apply_clock with_flags
  dsimp only
  split <;> rfl

theorem apply_turn_switch_with_flags (s : BoardState) (a b c : Bool) :
    apply_turn_switch (with_flags s a b c) = with_flags (apply_turn_switch s) a b c := by
  unfold apply_turn_switch with_flags
  dsimp only
  split <;> rfl

theorem apply_status_with_flags (s : BoardState) (a b c : Bool) :
    apply_status (with_flags s a b c) = with_flags (apply_status s) a b c := by
  unfold apply_status with_flags
  dsimp only
  split <;> rfl

theorem apply_record_with_flags (s : BoardState) (mv : Move) (fr fc tr tc : ℤ)
    (a b c : Bool) :
    apply_record (with_flags s a b c) mv fr fc tr tc =
      with_flags (apply_record s mv fr fc tr tc) a b c := rfl

theorem is_castling_move_false {b : Board} {fr fc tr tc : ℤ} {p : Piece}
    (hp : get_piece b fr fc = some p) (hk : p.type ≠ PieceType.KING) :
    is_castling_move b fr fc tr tc = false := by
  unfold is_castling_move
  rw [hp]
  dsimp only
  rw [if_pos hk]

theorem apply_piece_move_plain (X : BoardState) (p : Piece) (fr fc tr tc : ℤ)
    (hp : get_piece X.board fr fc = some p)
    (hk : p.type ≠ PieceType.KING) (hr : p.type ≠ PieceType.ROOK)
    (hcap : ∀ cp, get_piece X.board tr tc = some cp →
      ¬(cp.type = PieceType.ROOK ∧ (tc = 0 ∨ tc = 7))) :
    apply_piece_move X p (get_piece X.board tr tc) fr fc tr tc =
      { X with board := set_piece (set_piece X.board tr tc
          (some { p with has_moved := true })) fr fc none } := by
  unfold apply_piece_move
  rw [is_castling_move_false hp hk, if_neg (by simp)]
  dsimp only
  rw [if_neg hk, if_neg hr]
  rcases hc : get_piece X.board tr tc with _ | cp
  · rfl
  · dsimp only
    by_cases hcr : cp.type = PieceType.ROOK
    · rw [if_pos hcr]
      have := hcap cp hc
      rw [if_neg (by intro h0; exact this ⟨hcr, Or.inl h0⟩),
        if_neg (by intro h7; exact this ⟨hcr, Or.inr h7⟩)]
    · rw [if_neg hcr]

theorem with_flags_fullmove (s : BoardState) (a b c : Bool) :
    (with_flags s a b c).fullmove_number = s.fullmove_number := rfl

theorem make_move_with_promotion_body_eq (s : BoardState) (p : Piece)
    (fr fc tr tc : ℤ) (pt : PieceType)
    (hp : get_piece s.board fr fc = some p)
    (hk : p.type ≠ PieceType.KING) (hr : p.type ≠ PieceType.ROOK)
    (hprom : ¬(p.type = PieceType.PAWN ∧
      ((p.color = Color.WHITE ∧ tr = 0) ∨ (p.color = Color.BLACK ∧ tr = 7))))
    (hcap : ∀ cp, get_piece s.board tr tc = some cp →
      ¬(cp.type = PieceType.ROOK ∧ (tc = 0 ∨ tc = 7))) :
    make_move_with_promotion_body s p fr fc tr tc pt =
      with_flags (make_move_body s p fr fc tr tc)
        s.hanging_pieces_cache_valid s.exchange_cache_valid s.knight_fork_cache_valid := by
  have hb1 : (save_state_for_undo s).board = s.board := rfl
  have hb2 : (invalidate_hanging_pieces_cache (save_state_for_undo s)).board = s.board := rfl
  have hplain := apply_piece_move_plain (invalidate_hanging_pieces_cache
    (save_state_for_undo s)) p fr fc tr tc (by rw [hb2]; exact hp) hk hr
    (by rw [hb2]; exact hcap)
  rw [hb2] at hplain
  unfold make_move_with_promotion_body make_move_body
  dsimp only
  rw [hb1, hb2, hplain]
  rw [decide_eq_false hprom]
  simp only [Bool.false_eq_true, if_false, Bool.not_false, Bool.and_true]
  have hbridge : ∀ X : Board,
      ({ save_state_for_undo s with board := X } : BoardState) =
        with_flags { invalidate_hanging_pieces_cache (save_state_for_undo s) with board := X }
          s.hanging_pieces_cache_valid s.exchange_cache_valid s.knight_fork_cache_valid :=
    fun X => rfl
  rw [hbridge]
  rw [apply_pawn_rules_with_flags, apply_clock_with_flags, apply_turn_switch_with_flags,
    apply_status_with_flags, with_flags_fullmove, apply_record_with_flags]
  rfl

theorem with_flags_self (s : BoardState) :
    with_flags s s.hanging_pieces_cache_valid s.exchange_cache_valid
      s.knight_fork_cache_valid = s := by
  cases s
  rfl

/-- C3 amended: for every call whose mover is neither a king, nor a rook,
nor a pawn reaching the back rank, and which does not capture a rook on
column 0 or 7, `make_move_with_promotion` returns exactly what `make_move`
returns except that the three tactical-cache validity flags keep their
pre-move values instead of being cleared (`make_move_with_promotion` never
invalidates the caches).  On every rejected call both return `false` with
the state unchanged. -/
theorem c3_amended (s : BoardState) (fr fc tr tc : ℤ) (pt : PieceType) (p : Piece)
    (hp : s.get_piece fr fc = some p)
    (hk : p.type ≠ PieceType.KING) (hr : p.type ≠ PieceType.ROOK)
    (hprom : ¬(p.type = PieceType.PAWN ∧
      ((p.color = Color.WHITE ∧ tr = 0) ∨ (p.color = Color.BLACK ∧ tr = 7))))
    (hcap : ∀ cp, s.get_piece tr tc = some cp →
      ¬(cp.type = PieceType.ROOK ∧ (tc = 0 ∨ tc = 7))) :
    make_move_with_promotion s fr fc tr tc pt =
      ((make_move s fr fc tr tc).1,
        with_flags (make_move s fr fc tr tc).2
          s.hanging_pieces_cache_valid s.exchange_cache_valid s.knight_fork_cache_valid) := by
  unfold make_move make_move_with_promotion
  dsimp only
  by_cases hmem : (tr, tc) ∉ s.get_possible_moves fr fc
  · rw [if_pos hmem, if_pos hmem]
    dsimp only
    rw [with_flags_self]
  · rw [if_neg hmem, if_neg hmem, hp]
    dsimp only
    by_cases hc : p.color ≠ s.current_turn
    · rw [if_pos hc, if_pos hc]
      dsimp only
      rw [with_flags_self]
    · rw [if_neg hc, if_neg hc]
      dsimp only
      exact congrArg (fun z => (true, z))
        (make_move_with_promotion_body_eq s p fr fc tr tc pt hp hk hr hprom hcap)

/-- Witness for C3 amended: the knight move g1-f3 on the initial
position. -/
theorem c3_amended_witness :
    make_move_with_promotion initial_state 7 6 5 5 PieceType.QUEEN =
      ((make_move initial_state 7 6 5 5).1,
        with_flags (make_move initial_state 7 6 5 5).2
          initial_state.hanging_pieces_cache_valid initial_state.exchange_cache_valid
          initial_state.knight_fork_cache_valid) :=
  c3_amended initial_state 7 6 5 5 PieceType.QUEEN
    ⟨PieceType.KNIGHT, Color.WHITE, false⟩ (by decide) (by decide) (by decide)
    (by decide)
    (fun cp h => by
      rw [show initial_state.get_piece 5 5 = none from by decide] at h
      exact absurd h (by simp))

end Chess
